import Mathlib

/-!
Verification development for the shipyard_app plugin-composition library.

The Rust sources are embedded shallowly:
* type identities (std::any::TypeId) become Nat;
* plugin identities (PluginId, a Vec of type names) become List String;
* HashMap becomes an association list with first-match lookup
  (HashMap iteration order is arbitrary; the claims proved here do not
  depend on cross-key order);
* the external shipyard storage engine (out of scope per the spec) is
  modelled through the narrow interface the library consumes: component
  storages with inserted/modified tracking flags, uniques, update_pack;
* panics become error values (Option / Except), generic component values
  become type parameters or Nat.

The repository mixes two historical snapshots: app_builder.rs holds the
older AppBuilder (embedded below from that source), while app.rs and
app_add_cycle.rs reference a newer AppBuilder whose TypeIdBuckets,
AppWorkloadInfo and checking add_plugin are not in the sources; those
missing parts are modelled from the spec and marked as such.
-/

namespace ShipyardApp

abbrev TypeId := Nat

/-- PluginId from app_builder.rs: a stack of type names pushed while nested
plugin builds are running. -/
abbrev PluginId := List String

/-- First-match association-list lookup, the embedding of HashMap::get. -/
def alookup {κ α : Type} [DecidableEq κ] (l : List (κ × α)) (k : κ) : Option α :=
  match l with
  | [] => none
  | e :: es => if e.1 = k then some e.2 else alookup es k

/-- Update the first binding of a key, or append a fresh binding at the end;
the embedding of HashMap::insert / entry().or_default(). -/
def aset {κ α : Type} [DecidableEq κ] (l : List (κ × α)) (k : κ) (v : α) : List (κ × α) :=
  match l with
  | [] => [(k, v)]
  | e :: es => if e.1 = k then (k, v) :: es else e :: aset es k v

/-! ## Model of the external shipyard component storage

The spec (section 1, section 6) treats the entity/component engine as an
external collaborator consumed through a narrow interface.  A storage is a
finite map from entity ids to components, together with the inserted and
modified tracking flags that an update-packed storage maintains. -/

abbrev EntityId := Nat

structure Storage (α : Type) where
  comps : List (EntityId × α)
  inserted : List EntityId
  modified : List EntityId
deriving DecidableEq

/-- Consumed engine operation: insert or overwrite a component; an existing
entry is flagged as modified, a new one as inserted. -/
def add_component_unchecked {α : Type} (s : Storage α) (e : EntityId) (c : α) : Storage α :=
  match alookup s.comps e with
  | some _ =>
    { s with comps := aset s.comps e c
             modified := if e ∈ s.modified then s.modified else s.modified ++ [e] }
  | none =>
    { s with comps := aset s.comps e c
             inserted := if e ∈ s.inserted then s.inserted else s.inserted ++ [e] }

/-- Consumed engine operation: writing through a shipyard Mut wrapper
(DerefMut) assigns the component and flags it as modified; merely comparing
through the wrapper flags nothing. -/
def mut_write {α : Type} (s : Storage α) (e : EntityId) (c : α) : Storage α :=
  { s with comps := aset s.comps e c
           modified := if e ∈ s.modified then s.modified else s.modified ++ [e] }

/-- Consumed engine operation: delete a component and its tracking flags. -/
def sdelete {α : Type} (s : Storage α) (e : EntityId) : Storage α :=
  { comps := s.comps.filter (fun x => x.1 ≠ e)
    inserted := s.inserted.filter (fun x => x ≠ e)
    modified := s.modified.filter (fun x => x ≠ e) }

/-- AddDistinct::add_distinct for ViewMut (add_distinct.rs, single-view
instance): return false without touching the storage when the entity already
holds an equal component, otherwise assign it and return true. -/
def add_distinct {α : Type} [DecidableEq α] (s : Storage α) (e : EntityId) (c : α) :
    Bool × Storage α :=
  match alookup s.comps e with
  | some has_value =>
    if c = has_value then (false, s)
    else (true, add_component_unchecked s e c)
  | none => (true, add_component_unchecked s e c)

/-! ## UpdateOneToOne (update_one_to_one.rs) -/

/-- The read side of an UpdateOneToOne view: the inserted and modified
sections of an update-packed storage of T (with their components) and its
removed-or-deleted entity ids, as the three iterators used by the source. -/
structure ReadView (τ : Type) where
  inserted : List (EntityId × τ)
  modified : List (EntityId × τ)
  removed_or_deleted : List EntityId

/-- UpdateOneToOne::update_or_ignore: write computed values for inserted
entities, write values for modified entities only when distinct from the
existing component, and delete the write-side component of every
removed-or-deleted entity. -/
def update_or_ignore {τ υ : Type} [DecidableEq υ] (v : ReadView τ)
    (update_fn : EntityId → τ → Option υ) (s : Storage υ) : Storage υ :=
  let s1 := v.inserted.foldl
    (fun acc et =>
      match update_fn et.1 et.2 with
      | some u => add_component_unchecked acc et.1 u
      | none => acc) s
  let s2 := v.modified.foldl
    (fun acc et =>
      match update_fn et.1 et.2 with
      | some u =>
        match alookup acc.comps et.1 with
        | some exist => if exist = u then acc else mut_write acc et.1 u
        | none => add_component_unchecked acc et.1 u
      | none => acc) s1
  v.removed_or_deleted.foldl (fun acc e => sdelete acc e) s2

/-! ## The older AppBuilder (app_builder.rs) -/

namespace stage

def FIRST : String := "first"

def EVENT_UPDATE : String := "event_update"

def PRE_UPDATE : String := "pre_update"

def UPDATE : String := "update"

def POST_UPDATE : String := "post_update"

def LAST : String := "last"

end stage

/-- AppBuilder from app_builder.rs.  Systems are represented by the TypeId of
the storage their clear_inserted_and_modified reset targets; world_packed and
world_uniques model the consumed world state (which storages were flipped to
update_pack, and the installed unique values, modelled as Nat). -/
structure AppBuilder where
  track_current_plugin : PluginId
  track_type_names : List (TypeId × String)
  track_uniques : List (TypeId × List PluginId)
  track_unique_dependencies : List (TypeId × List (PluginId × String))
  track_update_packed : List (TypeId × List (PluginId × String))
  startup_workloads : List (String × List TypeId)
  stage_workloads : List (String × List TypeId)
  world_packed : List TypeId
  world_uniques : List (TypeId × Nat)
deriving DecidableEq

/-- Workloads::add_stage: append a fresh stage unless the name exists. -/
def wadd_stage (w : List (String × List TypeId)) (s : String) : List (String × List TypeId) :=
  if w.any (fun e => e.1 = s) then w else w ++ [(s, [])]

/-- Workloads::add_systems_to_stage: apply to the first stage with a matching
name only (the apply function is taken out of an Option); none models the
panic on an unknown stage. -/
def wadd_system (w : List (String × List TypeId)) (s : String) (t : TypeId) :
    Option (List (String × List TypeId)) :=
  match w with
  | [] => none
  | e :: es =>
    if e.1 = s then some ((e.1, e.2 ++ [t]) :: es)
    else (wadd_system es s t).map (fun rest => e :: rest)

def AppBuilder.empty : AppBuilder :=
  { track_current_plugin := []
    track_type_names := []
    track_uniques := []
    track_unique_dependencies := []
    track_update_packed := []
    startup_workloads := []
    stage_workloads := []
    world_packed := []
    world_uniques := [] }

def AppBuilder.add_stage (b : AppBuilder) (s : String) : AppBuilder :=
  { b with stage_workloads := wadd_stage b.stage_workloads s }

/-- AppBuilder::new = empty + add_default_stages (non startup-stages build). -/
def AppBuilder.new : AppBuilder :=
  ((((((AppBuilder.empty).add_stage stage.FIRST).add_stage
    stage.EVENT_UPDATE).add_stage stage.PRE_UPDATE).add_stage
    stage.UPDATE).add_stage stage.POST_UPDATE).add_stage stage.LAST

/-- AppBuilder::tracked_type_id_of: record the type name on first encounter.
The Rust generic type parameter T is represented by its TypeId t and its
display name tname. -/
def tracked_type_id_of (b : AppBuilder) (t : TypeId) (tname : String) : AppBuilder :=
  if (alookup b.track_type_names t).isSome then b
  else { b with track_type_names := b.track_type_names ++ [(t, tname)] }

/-- AppBuilder::update_pack: on the first claim for t, record the claim, flip
the storage to update_pack in the world and add a clear_inserted_and_modified
system for t at stage LAST; on later claims, only append the claim.  The
result is none when stage LAST is missing (source panics). -/
def update_pack (b : AppBuilder) (t : TypeId) (tname reason : String) : Option AppBuilder :=
  let b1 := tracked_type_id_of b t tname
  match alookup b1.track_update_packed t with
  | some l =>
    let packed := aset b1.track_update_packed t (l ++ [(b1.track_current_plugin, reason)])
    some { b1 with track_update_packed := packed }
  | none =>
    let b2 := { b1 with
      track_update_packed := aset b1.track_update_packed t [(b1.track_current_plugin, reason)],
      world_packed := b1.world_packed ++ [t] }
    (wadd_system b2.stage_workloads stage.LAST t).map
      (fun sw => { b2 with stage_workloads := sw })

/-- AppBuilder::add_unique: install the value in the world (overwriting any
existing one) and append the current plugin identity to the providers of t. -/
def add_unique (b : AppBuilder) (t : TypeId) (tname : String) (value : Nat) : AppBuilder :=
  let b1 := { b with world_uniques := aset b.world_uniques t value }
  let b2 := tracked_type_id_of b1 t tname
  let uniques := aset b2.track_uniques t
    (((alookup b2.track_uniques t).getD []) ++ [b2.track_current_plugin])
  { b2 with track_uniques := uniques }

/-- AppBuilder::add_unique_dependency: record a dependent claim for t. -/
def add_unique_dependency (b : AppBuilder) (t : TypeId) (tname reason : String) : AppBuilder :=
  let b1 := tracked_type_id_of b t tname
  let deps := aset b1.track_unique_dependencies t
    (((alookup b1.track_unique_dependencies t).getD []) ++ [(b1.track_current_plugin, reason)])
  { b1 with track_unique_dependencies := deps }

/-- The App produced by AppBuilder::finish. -/
structure App where
  update_stages : List String
  world_packed : List TypeId
  world_uniques : List (TypeId × Nat)
deriving DecidableEq

/-- The two panics AppBuilder::finish can raise: a type-name unwrap on a
never-recorded id, or the unmet-unique-dependencies failure carrying, for
every unmet unique type, its display name with every (plugin identity,
reason) dependent claim. -/
inductive FinishPanic where
  | missingTypeName : TypeId → FinishPanic
  | unmetUniqueDependencies : List (String × List (PluginId × String)) → FinishPanic
deriving DecidableEq

/-- AppBuilder::finish: after the diagnostics loop over track_uniques (which
unwraps each provided type's name and drops its entry from the dependents
ledger), every remaining dependent entry is an unmet dependency; if any
remain, finish panics listing all of them, else the App is assembled. -/
def finish (b : AppBuilder) : Except FinishPanic App :=
  match b.track_uniques.find? (fun e => (alookup b.track_type_names e.1).isNone) with
  | some e => Except.error (FinishPanic.missingTypeName e.1)
  | none =>
    let remaining := b.track_unique_dependencies.filter
      (fun e => (alookup b.track_uniques e.1).isNone)
    match remaining.find? (fun e => (alookup b.track_type_names e.1).isNone) with
    | some e => Except.error (FinishPanic.missingTypeName e.1)
    | none =>
      if remaining.isEmpty then
        Except.ok
          { update_stages := b.stage_workloads.map Prod.fst
            world_packed := b.world_packed
            world_uniques := b.world_uniques }
      else
        Except.error (FinishPanic.unmetUniqueDependencies
          (remaining.map (fun e => ((alookup b.track_type_names e.1).getD "", e.2))))

/-- The soft diagnostics finish emits: the ids of unique types provided by
more than one plugin (warned about, never an error). -/
def finish_warnings (b : AppBuilder) : List TypeId :=
  (b.track_uniques.filter (fun e => 1 < e.2.length)).map Prod.fst

/-- Providers recorded for a unique type (empty when never claimed). -/
def providersOf (b : AppBuilder) (t : TypeId) : List PluginId :=
  (alookup b.track_uniques t).getD []

/-- Dependent claims recorded for a unique type (empty when never claimed). -/
def dependentsOf (b : AppBuilder) (t : TypeId) : List (PluginId × String) :=
  (alookup b.track_unique_dependencies t).getD []

/-- Exclusive-tracking claims recorded for a component type. -/
def packClaimsOf (b : AppBuilder) (t : TypeId) : List (PluginId × String) :=
  (alookup b.track_update_packed t).getD []

/-- The systems scheduled in a named stage. -/
def stage_systems (b : AppBuilder) (s : String) : List TypeId :=
  (alookup b.stage_workloads s).getD []

/-! ## The cycle validator (app_add_cycle.rs)

app_add_cycle.rs is in the sources, but the TypeIdBuckets ledger and the
AppWorkloadInfo record it consumes belong to the newer snapshot and are not
under src.  Those two are modelled from the spec (section 4.3: an association
ledger appends claims per type identity in order and iterates its entries);
the add_cycle algorithm below is embedded from app_add_cycle.rs itself. -/

/-- A (plugin identity, reason) claim pair as summarised per workload. -/
abbrev PluginAssociated := PluginId × String

/-- Modelled from the spec: AppWorkloadInfo, the claim summary a finished
unit of work carries (workload name, identity of the plugin that built it,
and its exclusively-tracked storage and tracked-unique ledgers keyed by type
identity); the type is referenced by app_add_cycle.rs but absent from src. -/
structure AppWorkloadInfo where
  name : String
  plugin_id : Option TypeId
  track_update_packed : List (TypeId × List PluginAssociated)
  track_tracked_uniques : List (TypeId × List PluginAssociated)
deriving DecidableEq

/-- CyclePluginAssociations from app_add_cycle.rs. -/
structure CyclePluginAssociations where
  workload : String
  plugin_id : Option TypeId
  plugins : List PluginAssociated
deriving DecidableEq

/-- CycleCheckError from app_add_cycle.rs: one variant per kind of tracked
resource, carrying the resource's display name and every conflicting
workload's association. -/
inductive CycleCheckError where
  | UpdatePackResetInMultipleWorkloads : String → List CyclePluginAssociations → CycleCheckError
  | TrackedUniqueResetInMultipleWorkloads : String → List CyclePluginAssociations → CycleCheckError
deriving DecidableEq

/-- Modelled from the spec: TypeIdBuckets::associate (section 4.3), absent
from src: append a claim to the bucket of a type identity, creating the
bucket on first claim; entries stay in first-claim order. -/
def associate {α : Type} (bkts : List (TypeId × List α)) (t : TypeId) (a : α) :
    List (TypeId × List α) :=
  aset bkts t (((alookup bkts t).getD []) ++ [a])

abbrev Buckets := List (TypeId × List CyclePluginAssociations)

/-- The account-for-update-packs loop body of add_cycle: associate each
nonempty update-pack entry of one workload into the cumulative ledger. -/
def associate_workload_up (bkts : Buckets) (w : AppWorkloadInfo) : Buckets :=
  w.track_update_packed.foldl
    (fun acc e =>
      if e.2.isEmpty then acc
      else associate acc e.1 (CyclePluginAssociations.mk w.name w.plugin_id e.2)) bkts

/-- The account-for-tracked-uniques loop body of add_cycle (the source sets
plugin_id to None on these associations). -/
def associate_workload_tu (bkts : Buckets) (w : AppWorkloadInfo) : Buckets :=
  w.track_tracked_uniques.foldl
    (fun acc e =>
      if e.2.isEmpty then acc
      else associate acc e.1 (CyclePluginAssociations.mk w.name none e.2)) bkts

/-- The each_workload loop of add_cycle: workloads whose plugin id was
already seen are skipped; the rest associate their claims into the two
cumulative ledgers. -/
def walk (added : List TypeId) (up tu : Buckets) :
    List AppWorkloadInfo → Buckets × Buckets
  | [] => (up, tu)
  | w :: ws =>
    match w.plugin_id with
    | some p =>
      if p ∈ added then walk added up tu ws
      else walk (added ++ [p]) (associate_workload_up up w) (associate_workload_tu tu w) ws
    | none => walk added (associate_workload_up up w) (associate_workload_tu tu w) ws

/-- App::add_cycle: walk the workloads, then scan both cumulative ledgers,
collecting one error per type claimed by more than one entry; with no
conflicts the composed workload names are returned (names are recorded for
every input workload, skipped or not).  tn is the type-name registry. -/
def add_cycle (tn : TypeId → String) (cycle : List AppWorkloadInfo) :
    Except (List CycleCheckError) (List String) :=
  let bs := walk [] [] [] cycle
  let errs :=
    (bs.1.filter (fun e => 1 < e.2.length)).map
      (fun e => CycleCheckError.UpdatePackResetInMultipleWorkloads (tn e.1) e.2)
    ++ (bs.2.filter (fun e => 1 < e.2.length)).map
      (fun e => CycleCheckError.TrackedUniqueResetInMultipleWorkloads (tn e.1) e.2)
  if errs.isEmpty then Except.ok (cycle.map (fun w => w.name)) else Except.error errs

/-! Spec-side characterisation of add_cycle, used to state the claims: the
workloads that actually contribute (duplicate plugin identities skipped),
and per type the contributing claimers. -/

/-- The plugin-id accumulator after the walk processes a list. -/
def added_after (added : List TypeId) : List AppWorkloadInfo → List TypeId
  | [] => added
  | w :: ws =>
    match w.plugin_id with
    | some p =>
      if p ∈ added then added_after added ws else added_after (added ++ [p]) ws
    | none => added_after added ws

/-- The workloads the walk does not skip. -/
def surviving_workloads (added : List TypeId) : List AppWorkloadInfo → List AppWorkloadInfo
  | [] => []
  | w :: ws =>
    match w.plugin_id with
    | some p =>
      if p ∈ added then surviving_workloads added ws
      else w :: surviving_workloads (added ++ [p]) ws
    | none => w :: surviving_workloads added ws

/-- A workload's recorded update-pack claims for one type. -/
def up_claims (w : AppWorkloadInfo) (t : TypeId) : List PluginAssociated :=
  (alookup w.track_update_packed t).getD []

/-- A workload's recorded tracked-unique claims for one type. -/
def tu_claims (w : AppWorkloadInfo) (t : TypeId) : List PluginAssociated :=
  (alookup w.track_tracked_uniques t).getD []

/-- The non-skipped workloads claiming update-pack on a type. -/
def up_claimers (cycle : List AppWorkloadInfo) (t : TypeId) : List AppWorkloadInfo :=
  (surviving_workloads [] cycle).filter (fun w => !(up_claims w t).isEmpty)

/-- The non-skipped workloads claiming a tracked unique of a type. -/
def tu_claimers (cycle : List AppWorkloadInfo) (t : TypeId) : List AppWorkloadInfo :=
  (surviving_workloads [] cycle).filter (fun w => !(tu_claims w t).isEmpty)

/-- The association one claiming workload contributes for one type. -/
def up_entry (w : AppWorkloadInfo) (t : TypeId) : CyclePluginAssociations :=
  CyclePluginAssociations.mk w.name w.plugin_id (up_claims w t)

/-- The tracked-unique association one claiming workload contributes. -/
def tu_entry (w : AppWorkloadInfo) (t : TypeId) : CyclePluginAssociations :=
  CyclePluginAssociations.mk w.name none (tu_claims w t)

/-- The error batch add_cycle computes: one entry per cumulative-ledger type
claimed more than once, over both ledgers. -/
def cycle_errors (tn : TypeId → String) (cycle : List AppWorkloadInfo) :
    List CycleCheckError :=
  let bs := walk [] [] [] cycle
  (bs.1.filter (fun e => 1 < e.2.length)).map
    (fun e => CycleCheckError.UpdatePackResetInMultipleWorkloads (tn e.1) e.2)
  ++ (bs.2.filter (fun e => 1 < e.2.length)).map
    (fun e => CycleCheckError.TrackedUniqueResetInMultipleWorkloads (tn e.1) e.2)

/-- Generic form of the per-workload association loop: fold a workload's
id-keyed entry list into a cumulative ledger, associating each nonempty
entry through the payload function g. -/
def bucket_fold (g : List PluginAssociated → CyclePluginAssociations)
    (bkts : Buckets) (es : List (TypeId × List PluginAssociated)) : Buckets :=
  es.foldl (fun acc e => if e.2.isEmpty then acc else associate acc e.1 (g e.2)) bkts

/-- The conflict entry add_cycle reports for an update-pack conflict on one
type: its display name with every contributing workload's association. -/
def up_conflict_err (tn : TypeId → String) (cycle : List AppWorkloadInfo) (t : TypeId) :
    CycleCheckError :=
  CycleCheckError.UpdatePackResetInMultipleWorkloads (tn t)
    ((up_claimers cycle t).map (fun w => up_entry w t))

/-- The conflict entry add_cycle reports for a tracked-unique conflict. -/
def tu_conflict_err (tn : TypeId → String) (cycle : List AppWorkloadInfo) (t : TypeId) :
    CycleCheckError :=
  CycleCheckError.TrackedUniqueResetInMultipleWorkloads (tn t)
    ((tu_claimers cycle t).map (fun w => tu_entry w t))

/-! ## The newer, checking add_plugin (C3, C4, C7)

The add_plugin in src/src/app_builder.rs is the older snapshot and performs
no checks; the tests and callers in src (can_add_multiple_times,
add_plugin_workload_with_info) reference the newer checking AppBuilder that
is not under src.  It is modelled here from the spec (sections 3, 4.2, 4.4):
an added-plugins record keyed by the plugin's own type identity, an identity
stack, the duplicate-add check, the self-nesting cycle check, and a
scope-guarded push/pop around the nested build. -/

/-- Modelled from the spec: the Builder state the checking add_plugin needs:
the plugin identity stack (a path of type identities) and the added-plugins
record mapping a plugin's type identity to the identity under which it was
first added. -/
structure SpecAppBuilder where
  stack : List TypeId
  added_plugins : List (TypeId × List TypeId)
deriving DecidableEq

/-- Modelled from the spec: the two fatal add_plugin failures. -/
inductive AddPluginError where
  | pluginAlreadyAdded : List TypeId → AddPluginError
  | wouldCauseCycle : List TypeId → AddPluginError
deriving DecidableEq

/-- Modelled from the spec: the body of add_plugin after the duplicate-add
check: detect self-nesting against the identity stack, push the plugin's
identity, run the nested build, and pop the frame through a scoped guard that
runs whether or not the build failed; on success the plugin is recorded under
the identity as it existed when it was entered. -/
def add_plugin_enter (t : TypeId)
    (build : SpecAppBuilder → SpecAppBuilder × Option AddPluginError)
    (b : SpecAppBuilder) : SpecAppBuilder × Option AddPluginError :=
  if t ∈ b.stack then (b, some (AddPluginError.wouldCauseCycle (b.stack ++ [t])))
  else
    let entered := b.stack ++ [t]
    let r := build { b with stack := entered }
    let popped := { r.1 with stack := r.1.stack.dropLast }
    match r.2 with
    | some e => (popped, some e)
    | none =>
      ({ popped with added_plugins :=
          if (alookup popped.added_plugins t).isSome then popped.added_plugins
          else popped.added_plugins ++ [(t, entered)] }, none)

/-- Modelled from the spec: add_plugin of the newer Builder: fail if the
plugin type was already added and does not declare itself multiply-addable,
then enter the nested build with the cycle check and guarded identity
frame. -/
def add_plugin (t : TypeId) (multi : Bool)
    (build : SpecAppBuilder → SpecAppBuilder × Option AddPluginError)
    (b : SpecAppBuilder) : SpecAppBuilder × Option AddPluginError :=
  match alookup b.added_plugins t with
  | some prior =>
    if multi then add_plugin_enter t build b
    else (b, some (AddPluginError.pluginAlreadyAdded prior))
  | none => add_plugin_enter t build b

end ShipyardApp

/-! # Theorems -/

namespace ShipyardApp

theorem alookup_aset_self {κ α : Type} [DecidableEq κ] (l : List (κ × α)) (k : κ) (v : α) :
    alookup (aset l k v) k = some v := by
  induction l with
  | nil => simp [aset, alookup]
  | cons e es ih =>
    by_cases h : e.1 = k
    · simp [aset, alookup, h]
    · simp [aset, alookup, h, ih]

theorem alookup_aset_ne {κ α : Type} [DecidableEq κ] (l : List (κ × α)) (k k2 : κ) (v : α)
    (h : k2 ≠ k) : alookup (aset l k v) k2 = alookup l k2 := by
  have hk : ¬ (k = k2) := fun he => h he.symm
  induction l with
  | nil => simp [aset, alookup, hk]
  | cons e es ih =>
    by_cases he : e.1 = k
    · subst he
      simp [aset, alookup, hk]
    · simp only [aset, he, if_false, alookup]
      by_cases he2 : e.1 = k2
      · simp [he2]
      · simp [he2, ih]

theorem alookup_mem {κ α : Type} [DecidableEq κ] (l : List (κ × α)) (k : κ) (v : α)
    (h : alookup l k = some v) : (k, v) ∈ l := by
  induction l with
  | nil => simp [alookup] at h
  | cons e es ih =>
    by_cases he : e.1 = k
    · simp [alookup, he] at h
      have : e = (k, v) := by
        cases e
        simp_all
      rw [List.mem_cons]
      exact Or.inl this.symm
    · simp [alookup, he] at h
      exact List.mem_cons_of_mem _ (ih h)

theorem alookup_of_mem_nodup {κ α : Type} [DecidableEq κ] (l : List (κ × α)) (k : κ) (v : α)
    (hnd : (l.map Prod.fst).Nodup) (h : (k, v) ∈ l) : alookup l k = some v := by
  induction l with
  | nil => simp at h
  | cons e es ih =>
    rw [List.map_cons, List.nodup_cons] at hnd
    rw [List.mem_cons] at h
    rcases h with h | h
    · rw [← h]
      simp [alookup]
    · have hne : e.1 ≠ k := by
        intro he
        exact hnd.1 (by
          rw [he]
          exact List.mem_map_of_mem Prod.fst h)
      simp [alookup, hne]
      exact ih hnd.2 h

theorem alookup_isSome_iff {κ α : Type} [DecidableEq κ] (l : List (κ × α)) (k : κ) :
    (alookup l k).isSome ↔ k ∈ l.map Prod.fst := by
  induction l with
  | nil => simp [alookup]
  | cons e es ih =>
    by_cases he : e.1 = k
    · simp [alookup, he]
    · have he2 : ¬ (k = e.1) := fun h => he h.symm
      simp [alookup, he, ih, he2]

theorem alookup_eq_none_iff {κ α : Type} [DecidableEq κ] (l : List (κ × α)) (k : κ) :
    alookup l k = none ↔ k ∉ l.map Prod.fst := by
  rw [← alookup_isSome_iff]
  cases h : alookup l k <;> simp [h]

theorem aset_map_fst {κ α : Type} [DecidableEq κ] (l : List (κ × α)) (k : κ) (v : α) :
    (aset l k v).map Prod.fst = if k ∈ l.map Prod.fst then l.map Prod.fst
      else l.map Prod.fst ++ [k] := by
  induction l with
  | nil => simp [aset]
  | cons e es ih =>
    by_cases he : e.1 = k
    · simp [aset, he]
    · have he2 : ¬ (k = e.1) := fun h => he h.symm
      by_cases hk : k ∈ es.map Prod.fst
      · simp [aset, he, ih, hk]
      · simp [aset, he, ih, hk, he2]

theorem aset_keys_nodup {κ α : Type} [DecidableEq κ] (l : List (κ × α)) (k : κ) (v : α)
    (hnd : (l.map Prod.fst).Nodup) : ((aset l k v).map Prod.fst).Nodup := by
  rw [aset_map_fst]
  by_cases hk : k ∈ l.map Prod.fst
  · simpa [hk]
  · simp only [hk, if_false]
    rw [List.nodup_append]
    refine ⟨hnd, List.nodup_singleton k, ?_⟩
    intro a ha hb
    simp at hb
    exact hk (hb ▸ ha)

theorem dropLast_append_singleton {α : Type} (l : List α) (a : α) :
    (l ++ [a]).dropLast = l := by
  simp

/-- C3: for a plugin type not declared multiply-addable that is already in
the added-plugins record, add_plugin fails with the plugin-already-added
signal naming the identity under which it was first added, leaving the
builder untouched and never invoking the nested build. -/
theorem add_plugin_duplicate_fails (b : SpecAppBuilder) (t : TypeId) (prior : List TypeId)
    (build : SpecAppBuilder → SpecAppBuilder × Option AddPluginError)
    (h : alookup b.added_plugins t = some prior) :
    add_plugin t false build b = (b, some (AddPluginError.pluginAlreadyAdded prior)) := by
  simp [add_plugin, h]

/-- C3 witness: plugin 7 recorded under identity path 7 is rejected on a
second add. -/
theorem add_plugin_duplicate_fails_witness :
    add_plugin 7 false (fun x => (x, none)) (SpecAppBuilder.mk [] [(7, [7])])
      = (SpecAppBuilder.mk [] [(7, [7])],
          some (AddPluginError.pluginAlreadyAdded [7])) :=
  add_plugin_duplicate_fails (SpecAppBuilder.mk [] [(7, [7])]) 7 [7]
    (fun x => (x, none)) (by decide)

/-- C4: when the plugin's identity is already on the current identity stack
(a plugin adding itself, directly or through a chain of nested adds, before
its own build finished, hence not yet in the added-plugins record unless
multiply-addable), add_plugin fails with the would-cause-a-cycle signal; the
result does not depend on the build callback, so the build is not invoked,
and the builder is unchanged. -/
theorem add_plugin_self_nesting_fails (b : SpecAppBuilder) (t : TypeId) (multi : Bool)
    (build : SpecAppBuilder → SpecAppBuilder × Option AddPluginError)
    (hstk : t ∈ b.stack)
    (h : alookup b.added_plugins t = none ∨ multi = true) :
    add_plugin t multi build b
      = (b, some (AddPluginError.wouldCauseCycle (b.stack ++ [t]))) := by
  rcases h with h | h
  · simp [add_plugin, h, add_plugin_enter, hstk]
  · subst h
    unfold add_plugin
    cases halk : alookup b.added_plugins t <;> simp [add_plugin_enter, hstk]

/-- C4 witness: plugin 3, already on the stack, is rejected with a cycle
signal. -/
theorem add_plugin_self_nesting_fails_witness :
    add_plugin 3 false (fun x => (x, none)) (SpecAppBuilder.mk [3] [])
      = (SpecAppBuilder.mk [3] [],
          some (AddPluginError.wouldCauseCycle [3, 3])) :=
  add_plugin_self_nesting_fails (SpecAppBuilder.mk [3] []) 3 false
    (fun x => (x, none)) (by decide) (Or.inl (by decide))

/-- C7: add_plugin pushes the plugin's identity before invoking the nested
build (the build runs on the builder whose stack is the prior stack plus the
plugin) and restores the stack to exactly its prior value afterwards, on
every path: both pre-check failures, a failing nested build, and success
(the frame pop is guarded, so it runs whether or not the build failed).  The
hypothesis states that the nested build itself balances its pushes and pops,
which every composition of these operations does. -/
theorem add_plugin_stack_scoped (b : SpecAppBuilder) (t : TypeId) (multi : Bool)
    (build : SpecAppBuilder → SpecAppBuilder × Option AddPluginError)
    (hb : ∀ x, ((build x).1).stack = x.stack) :
    ((add_plugin t multi build b).1).stack = b.stack
    ∧ ((alookup b.added_plugins t = none ∨ multi = true) → t ∉ b.stack →
        (add_plugin t multi build b).2
          = (build { b with stack := b.stack ++ [t] }).2) := by
  have henter : ((add_plugin_enter t build b).1).stack = b.stack ∧ (t ∉ b.stack →
      (add_plugin_enter t build b).2 = (build { b with stack := b.stack ++ [t] }).2) := by
    unfold add_plugin_enter
    by_cases hstk : t ∈ b.stack
    · simp [hstk]
    · have hpop : ((build { b with stack := b.stack ++ [t] }).1).stack.dropLast = b.stack := by
        rw [hb]
        exact dropLast_append_singleton b.stack t
      cases hr : (build { b with stack := b.stack ++ [t] }).2 with
      | some e => simp [hstk, hr, hpop]
      | none => simp [hstk, hr, hpop]
  constructor
  · unfold add_plugin
    cases halk : alookup b.added_plugins t with
    | some prior => cases multi <;> simp [henter.1]
    | none => simp [henter.1]
  · intro h hstk
    rcases h with h | h
    · simp [add_plugin, h, henter.2 hstk]
    · subst h
      unfold add_plugin
      cases halk : alookup b.added_plugins t <;> simp [henter.2 hstk]

/-- C7 witness: adding plugin 5 over an empty stack leaves the stack empty
afterwards, both when the nested build succeeds and when it fails. -/
theorem add_plugin_stack_scoped_witness :
    ((add_plugin 5 false (fun x => (x, none)) (SpecAppBuilder.mk [] [])).1).stack = []
    ∧ ((add_plugin 5 false
          (fun x => (x, some (AddPluginError.wouldCauseCycle [])))
          (SpecAppBuilder.mk [] [])).1).stack = [] :=
  ⟨(add_plugin_stack_scoped (SpecAppBuilder.mk [] []) 5 false
      (fun x => (x, none)) (fun _ => rfl)).1,
   (add_plugin_stack_scoped (SpecAppBuilder.mk [] []) 5 false
      (fun x => (x, some (AddPluginError.wouldCauseCycle []))) (fun _ => rfl)).1⟩

theorem wadd_system_spec (w : List (String × List TypeId)) (s : String) (t : TypeId)
    (h : s ∈ w.map Prod.fst) :
    ∃ w2, wadd_system w s t = some w2
      ∧ alookup w2 s = some (((alookup w s).getD []) ++ [t])
      ∧ (∀ s2, s2 ≠ s → alookup w2 s2 = alookup w s2)
      ∧ w2.map Prod.fst = w.map Prod.fst := by
  induction w with
  | nil => simp at h
  | cons e es ih =>
    by_cases he : e.1 = s
    · refine ⟨(e.1, e.2 ++ [t]) :: es, ?_, ?_, ?_, ?_⟩
      · simp [wadd_system, he]
      · simp [alookup, he]
      · intro s2 hs2
        have hss2 : ¬ (s = s2) := fun hx => hs2 hx.symm
        have hes2 : ¬ (e.1 = s2) := he ▸ hss2
        simp [alookup, he, hss2, hes2]
      · simp [he]
    · have hes : s ∈ es.map Prod.fst := by
        rcases List.mem_map.mp h with ⟨x, hx, hxe⟩
        rcases List.mem_cons.mp hx with hx | hx
        · exact absurd (hxe ▸ congrArg Prod.fst hx.symm) (by simpa using he)
        · exact List.mem_map.mpr ⟨x, hx, hxe⟩
      rcases ih hes with ⟨w2, hw2, hself, hother, hkeys⟩
      refine ⟨e :: w2, ?_, ?_, ?_, ?_⟩
      · simp [wadd_system, he, hw2]
      · simp [alookup, he, hself]
      · intro s2 hs2
        by_cases he2 : e.1 = s2
        · simp [alookup, he2]
        · simp [alookup, he2, hother s2 hs2]
      · simp [hkeys]

theorem tracked_fields (b : AppBuilder) (t : TypeId) (tname : String) :
    (tracked_type_id_of b t tname).track_current_plugin = b.track_current_plugin
    ∧ (tracked_type_id_of b t tname).track_uniques = b.track_uniques
    ∧ (tracked_type_id_of b t tname).track_unique_dependencies = b.track_unique_dependencies
    ∧ (tracked_type_id_of b t tname).track_update_packed = b.track_update_packed
    ∧ (tracked_type_id_of b t tname).stage_workloads = b.stage_workloads
    ∧ (tracked_type_id_of b t tname).world_packed = b.world_packed
    ∧ (tracked_type_id_of b t tname).world_uniques = b.world_uniques
    ∧ (tracked_type_id_of b t tname).startup_workloads = b.startup_workloads := by
  unfold tracked_type_id_of
  split <;> simp

/-- C5: for a component type t, the first update_pack call (no claim yet
recorded for t) records the (current plugin identity, reason) claim, flips
t's storage to update_pack in the world, and appends exactly one
clear_inserted_and_modified reset system for t at stage LAST, leaving every
other type's claims and every other stage untouched; every subsequent call
(a claim list already recorded) appends its claim in call order and performs
neither side effect again. -/
theorem update_pack_spec (b : AppBuilder) (t : TypeId) (tname reason : String)
    (hlast : stage.LAST ∈ b.stage_workloads.map Prod.fst) :
    (alookup b.track_update_packed t = none → ∃ b2,
        update_pack b t tname reason = some b2
        ∧ packClaimsOf b2 t = [(b.track_current_plugin, reason)]
        ∧ (∀ u, u ≠ t → packClaimsOf b2 u = packClaimsOf b u)
        ∧ b2.world_packed = b.world_packed ++ [t]
        ∧ stage_systems b2 stage.LAST = stage_systems b stage.LAST ++ [t]
        ∧ (∀ s, s ≠ stage.LAST → stage_systems b2 s = stage_systems b s)
        ∧ (t ∉ stage_systems b stage.LAST →
            List.count t (stage_systems b2 stage.LAST) = 1)
        ∧ b2.track_uniques = b.track_uniques
        ∧ b2.track_unique_dependencies = b.track_unique_dependencies
        ∧ b2.track_current_plugin = b.track_current_plugin)
    ∧ (∀ l, alookup b.track_update_packed t = some l → ∃ b2,
        update_pack b t tname reason = some b2
        ∧ packClaimsOf b2 t = packClaimsOf b t ++ [(b.track_current_plugin, reason)]
        ∧ (∀ u, u ≠ t → packClaimsOf b2 u = packClaimsOf b u)
        ∧ b2.world_packed = b.world_packed
        ∧ b2.stage_workloads = b.stage_workloads
        ∧ b2.track_uniques = b.track_uniques
        ∧ b2.track_unique_dependencies = b.track_unique_dependencies
        ∧ b2.track_current_plugin = b.track_current_plugin) := by
  obtain ⟨hcur, huniq, hdeps, hpack, hstage, hworld, hwu, hsw⟩ := tracked_fields b t tname
  constructor
  · intro hnone
    rcases wadd_system_spec b.stage_workloads stage.LAST t hlast with
      ⟨w2, hw2, hwself, hwother, hwkeys⟩
    have hnone2 : alookup (tracked_type_id_of b t tname).track_update_packed t = none := by
      rw [hpack]
      exact hnone
    have hw22 : wadd_system (tracked_type_id_of b t tname).stage_workloads stage.LAST t
        = some w2 := by
      rw [hstage]
      exact hw2
    refine ⟨{ tracked_type_id_of b t tname with
        track_update_packed := aset (tracked_type_id_of b t tname).track_update_packed t
          [((tracked_type_id_of b t tname).track_current_plugin, reason)],
        world_packed := (tracked_type_id_of b t tname).world_packed ++ [t],
        stage_workloads := w2 }, ?_, ?_, ?_, ?_, ?_, ?_, ?_, ?_, ?_, ?_⟩
    · simp only [update_pack, hnone2, hw22]
      try rfl
    · simp only [packClaimsOf, hpack, hcur, alookup_aset_self, Option.getD_some]
    · intro u hu
      simp only [packClaimsOf, hpack, alookup_aset_ne _ _ _ _ hu]
    · simp [hworld]
    · simp only [stage_systems, hwself, Option.getD_some]
    · intro s hs
      simp only [stage_systems, hwother s hs]
    · intro hnot
      simp only [stage_systems, hwself, Option.getD_some]
      simp only [stage_systems] at hnot
      simp [List.count_append, List.count_eq_zero_of_not_mem hnot]
    · simp [huniq]
    · simp [hdeps]
    · simp [hcur]
  · intro l hsome
    have hsome2 : alookup (tracked_type_id_of b t tname).track_update_packed t = some l := by
      rw [hpack]
      exact hsome
    refine ⟨{ tracked_type_id_of b t tname with
        track_update_packed := aset (tracked_type_id_of b t tname).track_update_packed t
          (l ++ [((tracked_type_id_of b t tname).track_current_plugin, reason)]) },
        ?_, ?_, ?_, ?_, ?_, ?_, ?_, ?_⟩
    · simp only [update_pack, hsome2]
      try rfl
    · simp only [packClaimsOf, hpack, hcur, alookup_aset_self, Option.getD_some, hsome]
    · intro u hu
      simp only [packClaimsOf, hpack, alookup_aset_ne _ _ _ _ hu]
    · simp [hworld]
    · simp [hstage]
    · simp [huniq]
    · simp [hdeps]
    · simp [hcur]

/-- C5 witness: on a fresh builder the first update_pack of type 0 records
the claim, packs the storage, and schedules one reset system at stage LAST;
a second call only appends its claim. -/
theorem update_pack_spec_witness :
    (∃ b2, update_pack AppBuilder.new 0 "A" "r1" = some b2
      ∧ packClaimsOf b2 0 = [([], "r1")]
      ∧ b2.world_packed = [0]
      ∧ List.count 0 (stage_systems b2 stage.LAST) = 1
      ∧ (∃ b3, update_pack b2 0 "A" "r2" = some b3
          ∧ packClaimsOf b3 0 = [([], "r1"), ([], "r2")]
          ∧ b3.world_packed = [0]
          ∧ b3.stage_workloads = b2.stage_workloads)) := by
  rcases (update_pack_spec AppBuilder.new 0 "A" "r1" (by decide)).1 rfl with
    ⟨b2, heq, hclaims, _, hworld, hlastsys, _, hcount, _, _, hcur⟩
  have hlast2 : stage.LAST ∈ b2.stage_workloads.map Prod.fst := by
    have : (alookup b2.stage_workloads stage.LAST).isSome := by
      have := hlastsys
      unfold stage_systems at this
      cases hx : alookup b2.stage_workloads stage.LAST with
      | none =>
        rw [hx] at this
        simp at this
      | some v => simp
    exact (alookup_isSome_iff _ _).mp this
  have hsome2 : alookup b2.track_update_packed 0 = some [([], "r1")] := by
    have := hclaims
    unfold packClaimsOf at this
    cases hx : alookup b2.track_update_packed 0 with
    | none =>
      rw [hx] at this
      simp at this
    | some v =>
      rw [hx] at this
      simp at this
      rw [this]
      rfl
  rcases (update_pack_spec b2 0 "A" "r2" hlast2).2 [([], "r1")] hsome2 with
    ⟨b3, heq3, hclaims3, _, hworld3, hstage3, _, _, _⟩
  refine ⟨b2, heq, hclaims, by simpa using hworld, by
      apply hcount
      decide, ⟨b3, heq3, ?_, by simpa [hworld] using hworld3, hstage3⟩⟩
  rw [hclaims3, hclaims, hcur]
  rfl

/-- With every tracked id named, finish reduces to the unmet-dependency
check over the dependents remaining after providers are accounted for. -/
theorem finish_of_names (b : AppBuilder)
    (hn1 : ∀ e ∈ b.track_uniques, (alookup b.track_type_names e.1).isSome)
    (hn2 : ∀ e ∈ b.track_unique_dependencies, (alookup b.track_type_names e.1).isSome) :
    finish b =
      (if (b.track_unique_dependencies.filter
            (fun e => (alookup b.track_uniques e.1).isNone)).isEmpty
        then Except.ok
          (App.mk (b.stage_workloads.map Prod.fst) b.world_packed b.world_uniques)
        else Except.error (FinishPanic.unmetUniqueDependencies
          ((b.track_unique_dependencies.filter
              (fun e => (alookup b.track_uniques e.1).isNone)).map
            (fun e => ((alookup b.track_type_names e.1).getD "", e.2))))) := by
  have f1 : b.track_uniques.find? (fun e => (alookup b.track_type_names e.1).isNone) = none := by
    rw [List.find?_eq_none]
    intro e he
    have := hn1 e he
    cases hx : alookup b.track_type_names e.1 <;> simp [hx] at this ⊢
  have f2 : (b.track_unique_dependencies.filter
      (fun e => (alookup b.track_uniques e.1).isNone)).find?
        (fun e => (alookup b.track_type_names e.1).isNone) = none := by
    rw [List.find?_eq_none]
    intro e he
    have := hn2 e (List.mem_of_mem_filter he)
    cases hx : alookup b.track_type_names e.1 <;> simp [hx] at this ⊢
  simp only [finish, f1, f2]

/-- A type has zero recorded providers exactly when it is absent from the
providers ledger, given the ledger invariant that recorded lists are
nonempty (every add_unique call appends an element). -/
theorem providers_eq_nil (b : AppBuilder) (t : TypeId)
    (hprov : ∀ e ∈ b.track_uniques, e.2 ≠ []) (h : providersOf b t = []) :
    alookup b.track_uniques t = none := by
  cases hx : alookup b.track_uniques t with
  | none => rfl
  | some v =>
    have hv : v = [] := by
      have := h
      unfold providersOf at this
      rw [hx] at this
      simpa using this
    exact absurd hv (hprov (t, v) (alookup_mem _ _ _ hx))

/-- A type with dependent claims has its full claim list in the ledger. -/
theorem dependents_alookup (b : AppBuilder) (t : TypeId) (h : dependentsOf b t ≠ []) :
    alookup b.track_unique_dependencies t = some (dependentsOf b t) := by
  unfold dependentsOf at h ⊢
  cases hx : alookup b.track_unique_dependencies t with
  | none =>
    rw [hx] at h
    simp at h
  | some v => simp [hx]

/-- When every depended-on unique has a provider, nothing remains after the
providers are accounted for and finish succeeds. -/
theorem finish_ok_of_all_met (b : AppBuilder)
    (hn1 : ∀ e ∈ b.track_uniques, (alookup b.track_type_names e.1).isSome)
    (hn2 : ∀ e ∈ b.track_unique_dependencies, (alookup b.track_type_names e.1).isSome)
    (hdeps : ∀ e ∈ b.track_unique_dependencies, e.2 ≠ [])
    (hnd : (b.track_unique_dependencies.map Prod.fst).Nodup)
    (hmet : ∀ t, dependentsOf b t ≠ [] → providersOf b t ≠ []) :
    finish b = Except.ok
      (App.mk (b.stage_workloads.map Prod.fst) b.world_packed b.world_uniques) := by
  rw [finish_of_names b hn1 hn2]
  have hempty : (b.track_unique_dependencies.filter
      (fun e => (alookup b.track_uniques e.1).isNone)) = [] := by
    rw [List.eq_nil_iff_forall_not_mem]
    intro e he
    rw [List.mem_filter] at he
    have hmm : (e.1, e.2) ∈ b.track_unique_dependencies := he.1
    have hdep : dependentsOf b e.1 ≠ [] := by
      unfold dependentsOf
      rw [alookup_of_mem_nodup b.track_unique_dependencies e.1 e.2 hnd hmm]
      simpa using hdeps e he.1
    have hpro := hmet e.1 hdep
    unfold providersOf at hpro
    cases hx : alookup b.track_uniques e.1 with
    | none =>
      rw [hx] at hpro
      simp at hpro
    | some v =>
      have hn := he.2
      rw [hx] at hn
      simp at hn
  simp [hempty]

/-- C1: when AppBuilder::finish is called, it fails iff some unique type has
a recorded dependent claim and zero recorded provider claims, and the
failure lists every such unmet type (by display name) together with every
(plugin identity, reason) pair that depended on it, and nothing else; with
every depended-on unique provided, finish succeeds regardless of how many
dependents each type has.  The hypotheses are the ledger invariants the
builder maintains: recorded claim lists are nonempty, every tracked id is
named, and the dependents ledger keys are distinct. -/
theorem finish_unmet_dependency_spec (b : AppBuilder)
    (hn1 : ∀ e ∈ b.track_uniques, (alookup b.track_type_names e.1).isSome)
    (hn2 : ∀ e ∈ b.track_unique_dependencies, (alookup b.track_type_names e.1).isSome)
    (hprov : ∀ e ∈ b.track_uniques, e.2 ≠ [])
    (hdeps : ∀ e ∈ b.track_unique_dependencies, e.2 ≠ [])
    (hnd : (b.track_unique_dependencies.map Prod.fst).Nodup) :
    ((∀ t, dependentsOf b t ≠ [] → providersOf b t ≠ []) → ∃ a, finish b = Except.ok a)
    ∧ (∀ t, dependentsOf b t ≠ [] → providersOf b t = [] →
        ∃ errs, finish b = Except.error (FinishPanic.unmetUniqueDependencies errs)
          ∧ ((alookup b.track_type_names t).getD "", dependentsOf b t) ∈ errs)
    ∧ (∀ p, finish b = Except.error p →
        ∃ errs, p = FinishPanic.unmetUniqueDependencies errs ∧ errs ≠ []
          ∧ ∀ x ∈ errs, ∃ t, dependentsOf b t ≠ [] ∧ providersOf b t = []
              ∧ x = ((alookup b.track_type_names t).getD "", dependentsOf b t)) := by
  refine ⟨?_, ?_, ?_⟩
  · intro hmet
    exact ⟨_, finish_ok_of_all_met b hn1 hn2 hdeps hnd hmet⟩
  · intro t hdep hpro
    have hnone := providers_eq_nil b t hprov hpro
    have hsome := dependents_alookup b t hdep
    have hmem : (t, dependentsOf b t) ∈ b.track_unique_dependencies.filter
        (fun e => (alookup b.track_uniques e.1).isNone) := by
      rw [List.mem_filter]
      exact ⟨alookup_mem _ _ _ hsome, by simp [hnone]⟩
    have hne : ¬ (b.track_unique_dependencies.filter
        (fun e => (alookup b.track_uniques e.1).isNone)).isEmpty := by
      rw [List.isEmpty_iff]
      exact List.ne_nil_of_mem hmem
    refine ⟨(b.track_unique_dependencies.filter
        (fun e => (alookup b.track_uniques e.1).isNone)).map
        (fun e => ((alookup b.track_type_names e.1).getD "", e.2)), ?_, ?_⟩
    · rw [finish_of_names b hn1 hn2, if_neg hne]
    · exact List.mem_map.mpr ⟨(t, dependentsOf b t), hmem, rfl⟩
  · intro p hp
    rw [finish_of_names b hn1 hn2] at hp
    by_cases hempty : (b.track_unique_dependencies.filter
        (fun e => (alookup b.track_uniques e.1).isNone)).isEmpty
    · simp [hempty] at hp
    · rw [if_neg hempty] at hp
      rw [Except.error.injEq] at hp
      refine ⟨_, hp.symm, ?_, ?_⟩
      · intro hnil
        rw [List.map_eq_nil_iff] at hnil
        rw [List.isEmpty_iff] at hempty
        exact hempty hnil
      · intro x hx
        rcases List.mem_map.mp hx with ⟨e, he, hxe⟩
        rw [List.mem_filter] at he
        have hlk : alookup b.track_unique_dependencies e.1 = some e.2 :=
          alookup_of_mem_nodup _ _ _ hnd (by
            cases e
            exact he.1)
        have hdepe : dependentsOf b e.1 = e.2 := by
          unfold dependentsOf
          rw [hlk]
          rfl
        refine ⟨e.1, ?_, ?_, ?_⟩
        · rw [hdepe]
          simpa using hdeps e he.1
        · unfold providersOf
          have : alookup b.track_uniques e.1 = none := by
            have := he.2
            cases hy : alookup b.track_uniques e.1 <;> simp [hy] at this ⊢
          simp [this]
        · rw [hdepe]
          exact hxe.symm

/-- C1 witness: a builder with one dependent claim on unnamed-type 0 and no
providers fails listing the type's name with the dependent pair; adding a
provider makes finish succeed. -/
theorem finish_unmet_dependency_spec_witness :
    (∃ errs,
      finish { AppBuilder.empty with
          track_type_names := [(0, "T")],
          track_unique_dependencies := [(0, [([], "needs T")])] }
        = Except.error (FinishPanic.unmetUniqueDependencies errs)
      ∧ ("T", [(([] : PluginId), "needs T")]) ∈ errs)
    ∧ (∃ a,
      finish { AppBuilder.empty with
          track_type_names := [(0, "T")],
          track_uniques := [(0, [[]])],
          track_unique_dependencies := [(0, [([], "needs T")])] }
        = Except.ok a) := by
  constructor
  · exact (finish_unmet_dependency_spec
      { AppBuilder.empty with
          track_type_names := [(0, "T")],
          track_unique_dependencies := [(0, [([], "needs T")])] }
      (by decide) (by decide) (by decide) (by decide) (by decide)).2.1 0
      (by decide) (by decide)
  · refine (finish_unmet_dependency_spec
      { AppBuilder.empty with
          track_type_names := [(0, "T")],
          track_uniques := [(0, [[]])],
          track_unique_dependencies := [(0, [([], "needs T")])] }
      (by decide) (by decide) (by decide) (by decide) (by decide)).1 ?_
    intro t hdep
    by_cases h0 : t = 0
    · subst h0
      decide
    · exfalso
      apply hdep
      have hz : ¬ ((0 : TypeId) = t) := fun h => h0 h.symm
      simp [dependentsOf, alookup, hz]

/-- C8: add_unique never fails: it always installs its value (the last
provider's value wins in the world), appends the current plugin identity to
the type's providers list whether or not providers already exist, and leaves
dependents, update-pack claims and stages untouched; a type provided more
than once appears in the finish diagnostics warning list, while finish
succeeds whenever all dependents are met, regardless of provider
multiplicity (multiple providers are never an error). -/
theorem add_unique_last_wins_spec (b : AppBuilder) (t : TypeId) (tname : String) (value : Nat)
    (hn1 : ∀ e ∈ b.track_uniques, (alookup b.track_type_names e.1).isSome)
    (hn2 : ∀ e ∈ b.track_unique_dependencies, (alookup b.track_type_names e.1).isSome)
    (hdeps : ∀ e ∈ b.track_unique_dependencies, e.2 ≠ [])
    (hnd : (b.track_unique_dependencies.map Prod.fst).Nodup) :
    (alookup (add_unique b t tname value).world_uniques t = some value)
    ∧ (∀ u, u ≠ t →
        alookup (add_unique b t tname value).world_uniques u = alookup b.world_uniques u)
    ∧ providersOf (add_unique b t tname value) t = providersOf b t ++ [b.track_current_plugin]
    ∧ (∀ u, u ≠ t → providersOf (add_unique b t tname value) u = providersOf b u)
    ∧ (add_unique b t tname value).track_unique_dependencies = b.track_unique_dependencies
    ∧ (add_unique b t tname value).track_update_packed = b.track_update_packed
    ∧ (add_unique b t tname value).stage_workloads = b.stage_workloads
    ∧ (1 < (providersOf b t).length → t ∈ finish_warnings b)
    ∧ ((∀ u, dependentsOf b u ≠ [] → providersOf b u ≠ []) → ∃ a, finish b = Except.ok a) := by
  obtain ⟨hcur, huniq, hdepsf, hpackf, hstagef, hworldf, hwuf, hswf⟩ :=
    tracked_fields { b with world_uniques := aset b.world_uniques t value } t tname
  have hres_wu : (add_unique b t tname value).world_uniques = aset b.world_uniques t value := by
    simp only [add_unique, hwuf]
  have hres_uni : (add_unique b t tname value).track_uniques
      = aset b.track_uniques t (providersOf b t ++ [b.track_current_plugin]) := by
    simp only [add_unique, huniq, hcur, providersOf]
  have hres_deps : (add_unique b t tname value).track_unique_dependencies
      = b.track_unique_dependencies := by
    simp only [add_unique, hdepsf]
  have hres_pack : (add_unique b t tname value).track_update_packed
      = b.track_update_packed := by
    simp only [add_unique, hpackf]
  have hres_stage : (add_unique b t tname value).stage_workloads = b.stage_workloads := by
    simp only [add_unique, hstagef]
  refine ⟨?_, ?_, ?_, ?_, hres_deps, hres_pack, hres_stage, ?_, ?_⟩
  · rw [hres_wu]
    exact alookup_aset_self _ _ _
  · intro u hu
    rw [hres_wu]
    exact alookup_aset_ne _ _ _ _ hu
  · unfold providersOf
    rw [hres_uni, alookup_aset_self]
    rfl
  · intro u hu
    unfold providersOf
    rw [hres_uni, alookup_aset_ne _ _ _ _ hu]
  · intro hlen
    unfold providersOf at hlen
    cases hx : alookup b.track_uniques t with
    | none =>
      rw [hx] at hlen
      simp at hlen
    | some v =>
      rw [hx] at hlen
      simp at hlen
      unfold finish_warnings
      refine List.mem_map.mpr ⟨(t, v), ?_, rfl⟩
      rw [List.mem_filter]
      exact ⟨alookup_mem _ _ _ hx, by simpa using hlen⟩
  · intro hmet
    exact ⟨_, finish_ok_of_all_met b hn1 hn2 hdeps hnd hmet⟩

/-- C8 witness: with one provider already recorded for type 0, a second
add_unique still succeeds with its value winning, both providers recorded,
the type warned about, and finish succeeding. -/
theorem add_unique_last_wins_spec_witness :
    alookup (add_unique { AppBuilder.empty with
        track_type_names := [(0, "T")],
        track_uniques := [(0, [["P1"]])] } 0 "T" 2).world_uniques 0 = some 2
    ∧ providersOf (add_unique { AppBuilder.empty with
        track_type_names := [(0, "T")],
        track_uniques := [(0, [["P1"]])] } 0 "T" 2) 0 = [["P1"], []]
    ∧ 0 ∈ finish_warnings (add_unique { AppBuilder.empty with
        track_type_names := [(0, "T")],
        track_uniques := [(0, [["P1"]])] } 0 "T" 2)
    ∧ ∃ a, finish (add_unique { AppBuilder.empty with
        track_type_names := [(0, "T")],
        track_uniques := [(0, [["P1"]])] } 0 "T" 2) = Except.ok a := by
  have h1 := add_unique_last_wins_spec { AppBuilder.empty with
      track_type_names := [(0, "T")],
      track_uniques := [(0, [["P1"]])] } 0 "T" 2
    (by decide) (by decide) (by decide) (by decide)
  have h2 := add_unique_last_wins_spec (add_unique { AppBuilder.empty with
      track_type_names := [(0, "T")],
      track_uniques := [(0, [["P1"]])] } 0 "T" 2) 0 "T" 3
    (by decide) (by decide) (by decide) (by decide)
  refine ⟨h1.1, ?_, ?_, ?_⟩
  · rw [h1.2.2.1]
    rfl
  · exact h2.2.2.2.2.2.2.2.1 (by decide)
  · exact h2.2.2.2.2.2.2.2.2 (fun u hdep => absurd rfl hdep)

theorem alookup_filter_ne {α : Type} (l : List (EntityId × α)) (e e2 : EntityId)
    (h : e2 ≠ e) :
    alookup (l.filter (fun x => x.1 ≠ e)) e2 = alookup l e2 := by
  induction l with
  | nil => rfl
  | cons x xs ih =>
    rw [List.filter_cons]
    by_cases hx : x.1 = e
    · have hx2 : ¬ (x.1 = e2) := by
        rw [hx]
        exact fun hh => h hh.symm
      rw [if_neg (by simp [hx])]
      rw [show alookup (x :: xs) e2 = alookup xs e2 from by simp [alookup, hx2]]
      exact ih
    · rw [if_pos (by simp [hx])]
      by_cases hx2 : x.1 = e2
      · simp [alookup, hx2]
      · simp only [decide_not] at ih
        simp [alookup, hx2, ih]

theorem add_component_unchecked_ne {α : Type} (s : Storage α) (e e2 : EntityId) (c : α)
    (h : e2 ≠ e) :
    alookup (add_component_unchecked s e c).comps e2 = alookup s.comps e2
    ∧ (e2 ∈ (add_component_unchecked s e c).modified ↔ e2 ∈ s.modified) := by
  unfold add_component_unchecked
  cases hl : alookup s.comps e
  · simp [alookup_aset_ne _ _ _ _ h]
  · constructor
    · simp [alookup_aset_ne _ _ _ _ h]
    · by_cases hm : e ∈ s.modified
      · simp [hm]
      · simp [hm, h]

theorem mut_write_ne {α : Type} (s : Storage α) (e e2 : EntityId) (c : α)
    (h : e2 ≠ e) :
    alookup (mut_write s e c).comps e2 = alookup s.comps e2
    ∧ (e2 ∈ (mut_write s e c).modified ↔ e2 ∈ s.modified) := by
  unfold mut_write
  constructor
  · simp [alookup_aset_ne _ _ _ _ h]
  · by_cases hm : e ∈ s.modified
    · simp [hm]
    · simp [hm, h]

theorem sdelete_ne {α : Type} (s : Storage α) (e e2 : EntityId) (h : e2 ≠ e) :
    alookup (sdelete s e).comps e2 = alookup s.comps e2
    ∧ (e2 ∈ (sdelete s e).modified ↔ e2 ∈ s.modified) := by
  unfold sdelete
  constructor
  · exact alookup_filter_ne _ _ _ h
  · simp [List.mem_filter, h]

theorem sdelete_self_none {α : Type} (s : Storage α) (e : EntityId) :
    alookup (sdelete s e).comps e = none := by
  rw [alookup_eq_none_iff]
  intro hmem
  rcases List.mem_map.mp hmem with ⟨x, hx, hxe⟩
  unfold sdelete at hx
  rw [List.mem_filter] at hx
  have hx2 := hx.2
  simp at hx2
  exact hx2 hxe

theorem sdelete_keeps_none {α : Type} (s : Storage α) (e x : EntityId)
    (h : alookup s.comps e = none) : alookup (sdelete s x).comps e = none := by
  rw [alookup_eq_none_iff] at h ⊢
  intro hmem
  rcases List.mem_map.mp hmem with ⟨y, hy, hye⟩
  unfold sdelete at hy
  exact h (List.mem_map.mpr ⟨y, List.mem_of_mem_filter hy, hye⟩)

theorem foldl_sdelete_keeps_none {α : Type} (L : List EntityId) (s : Storage α) (e : EntityId)
    (h : alookup s.comps e = none) :
    alookup ((L.foldl (fun acc x => sdelete acc x) s).comps) e = none := by
  induction L generalizing s with
  | nil => exact h
  | cons x xs ih => exact ih (sdelete s x) (sdelete_keeps_none s e x h)

theorem foldl_sdelete_none {α : Type} (L : List EntityId) (s : Storage α) (e : EntityId)
    (h : e ∈ L) :
    alookup ((L.foldl (fun acc x => sdelete acc x) s).comps) e = none := by
  induction L generalizing s with
  | nil => simp at h
  | cons x xs ih =>
    rcases List.mem_cons.mp h with h | h
    · subst h
      by_cases hx : e ∈ xs
      · exact ih (sdelete s e) hx
      · exact foldl_sdelete_keeps_none xs (sdelete s e) e (sdelete_self_none s e)
    · exact ih (sdelete s x) h

theorem foldl_preserves {β σ : Type} (P : σ → Prop) (step : σ → β → σ) (L : List β)
    (hstep : ∀ acc x, x ∈ L → P acc → P (step acc x)) (s : σ) (hs : P s) :
    P (L.foldl step s) := by
  induction L generalizing s with
  | nil => exact hs
  | cons x xs ih =>
    exact ih (fun acc y hy hp => hstep acc y (List.mem_cons_of_mem x hy) hp)
      (step s x) (hstep s x (List.mem_cons_self x xs) hs)

theorem nodup_key_eq {α : Type} (l : List (EntityId × α)) (a b : EntityId × α)
    (hnd : (l.map Prod.fst).Nodup) (ha : a ∈ l) (hb : b ∈ l) (hab : a.1 = b.1) :
    a = b := by
  induction l with
  | nil => simp at ha
  | cons x xs ih =>
    rw [List.map_cons, List.nodup_cons] at hnd
    rcases List.mem_cons.mp ha with ha | ha <;> rcases List.mem_cons.mp hb with hb | hb
    · rw [ha, hb]
    · exfalso
      apply hnd.1
      rw [← ha, hab]
      exact List.mem_map_of_mem Prod.fst hb
    · exfalso
      apply hnd.1
      rw [← hb, ← hab]
      exact List.mem_map_of_mem Prod.fst ha
    · exact ih hnd.2 ha hb

/-- C10: in UpdateOneToOne::update_or_ignore, an entity of the read view's
modified section whose computed value equals its existing write-side
component is not written: its component and its modified flag are exactly as
before (an update-packed write storage is not marked modified); and every
entity of the read view's removed-or-deleted section has its write-side
component deleted. -/
theorem update_or_ignore_spec {τ υ : Type} [DecidableEq υ] (v : ReadView τ)
    (update_fn : EntityId → τ → Option υ) (s : Storage υ) (e : EntityId) (t : τ) (u : υ)
    (hmem : (e, t) ∈ v.modified)
    (hf : update_fn e t = some u)
    (hexist : alookup s.comps e = some u)
    (hnotins : e ∉ v.inserted.map Prod.fst)
    (hnd : (v.modified.map Prod.fst).Nodup)
    (hnotrem : e ∉ v.removed_or_deleted) :
    (alookup (update_or_ignore v update_fn s).comps e = alookup s.comps e
     ∧ (e ∈ (update_or_ignore v update_fn s).modified ↔ e ∈ s.modified))
    ∧ (∀ e2 ∈ v.removed_or_deleted,
        alookup (update_or_ignore v update_fn s).comps e2 = none) := by
  set P : Storage υ → Prop :=
    fun s2 => alookup s2.comps e = some u ∧ (e ∈ s2.modified ↔ e ∈ s.modified) with hPdef
  have h1 : P (v.inserted.foldl
      (fun acc et =>
        match update_fn et.1 et.2 with
        | some u2 => add_component_unchecked acc et.1 u2
        | none => acc) s) := by
    apply foldl_preserves P _ v.inserted
    · intro acc x hx hp
      have hxe : e ≠ x.1 := by
        intro hh
        exact hnotins (List.mem_map.mpr ⟨x, hx, hh.symm⟩)
      cases hux : update_fn x.1 x.2 with
      | none => simpa [hux] using hp
      | some u2 =>
        have hne := add_component_unchecked_ne acc x.1 e u2 hxe
        exact ⟨by
          simp only [hux]
          rw [hne.1]
          exact hp.1, by
          simp only [hux]
          rw [hne.2]
          exact hp.2⟩
    · exact ⟨hexist, Iff.rfl⟩
  have h2 : P ((v.modified.foldl
      (fun acc et =>
        match update_fn et.1 et.2 with
        | some u2 =>
          match alookup acc.comps et.1 with
          | some exist => if exist = u2 then acc else mut_write acc et.1 u2
          | none => add_component_unchecked acc et.1 u2
        | none => acc)
      (v.inserted.foldl
        (fun acc et =>
          match update_fn et.1 et.2 with
          | some u2 => add_component_unchecked acc et.1 u2
          | none => acc) s))) := by
    apply foldl_preserves P _ v.modified
    · intro acc x hx hp
      by_cases hxe : x.1 = e
      · have hxeq : x = (e, t) := nodup_key_eq v.modified x (e, t) hnd hx hmem hxe
        subst hxeq
        simp only [hf, hp.1, if_pos rfl]
        exact hp
      · have hxe2 : e ≠ x.1 := fun hh => hxe hh.symm
        cases hux : update_fn x.1 x.2 with
        | none => simpa [hux] using hp
        | some u2 =>
          cases hacc : alookup acc.comps x.1 with
          | some exist =>
            by_cases heq : exist = u2
            · simpa [hux, hacc, heq] using hp
            · have hne := mut_write_ne acc x.1 e u2 hxe2
              exact ⟨by
                simp only [hux, hacc, if_neg heq]
                rw [hne.1]
                exact hp.1, by
                simp only [hux, hacc, if_neg heq]
                rw [hne.2]
                exact hp.2⟩
          | none =>
            have hne := add_component_unchecked_ne acc x.1 e u2 hxe2
            exact ⟨by
              simp only [hux, hacc]
              rw [hne.1]
              exact hp.1, by
              simp only [hux, hacc]
              rw [hne.2]
              exact hp.2⟩
    · exact h1
  constructor
  · have h3 : P (update_or_ignore v update_fn s) := by
      unfold update_or_ignore
      apply foldl_preserves P _ v.removed_or_deleted
      · intro acc x hx hp
        have hxe : e ≠ x := fun hh => hnotrem (hh ▸ hx)
        have hne := sdelete_ne acc x e hxe
        exact ⟨hne.1.trans hp.1, hne.2.trans hp.2⟩
      · exact h2
    exact ⟨h3.1.trans hexist.symm, h3.2⟩
  · intro e2 he2
    unfold update_or_ignore
    exact foldl_sdelete_none v.removed_or_deleted _ e2 he2

/-- C10 witness: entity 1 is modified on the read side but its computed
value 11 equals the existing write-side component, so it stays untouched and
unflagged; entity 2 is removed-or-deleted, so its component is deleted. -/
theorem update_or_ignore_spec_witness :
    (alookup (update_or_ignore (ReadView.mk [] [(1, 10)] [2])
        (fun _ x => some (x + 1)) (Storage.mk [(1, 11), (2, 5)] [] [])).comps 1
      = alookup (Storage.mk [(1, 11), (2, 5)] [] [] : Storage Nat).comps 1
     ∧ (1 ∈ (update_or_ignore (ReadView.mk [] [(1, 10)] [2])
        (fun _ x => some (x + 1)) (Storage.mk [(1, 11), (2, 5)] [] [])).modified
        ↔ 1 ∈ (Storage.mk [(1, 11), (2, 5)] [] [] : Storage Nat).modified))
    ∧ (∀ e2 ∈ [2],
        alookup (update_or_ignore (ReadView.mk [] [(1, 10)] [2])
          (fun _ x => some (x + 1)) (Storage.mk [(1, 11), (2, 5)] [] [])).comps e2 = none) :=
  update_or_ignore_spec (ReadView.mk [] [(1, 10)] [2]) (fun _ x => some (x + 1))
    (Storage.mk [(1, 11), (2, 5)] [] []) 1 10 11
    (by decide) rfl (by decide) (by decide) (by decide) (by decide)

theorem surviving_subset (ws : List AppWorkloadInfo) :
    ∀ added w, w ∈ surviving_workloads added ws → w ∈ ws := by
  induction ws with
  | nil =>
    intro added w h
    simp [surviving_workloads] at h
  | cons x xs ih =>
    intro added w h
    cases hx : x.plugin_id with
    | some p =>
      simp only [surviving_workloads, hx] at h
      by_cases hp : p ∈ added
      · rw [if_pos hp] at h
        exact List.mem_cons_of_mem x (ih added w h)
      · rw [if_neg hp] at h
        rcases List.mem_cons.mp h with h | h
        · exact h ▸ List.mem_cons_self x xs
        · exact List.mem_cons_of_mem x (ih (added ++ [p]) w h)
    | none =>
      simp only [surviving_workloads, hx] at h
      rcases List.mem_cons.mp h with h | h
      · exact h ▸ List.mem_cons_self x xs
      · exact List.mem_cons_of_mem x (ih added w h)

theorem walk_eq (ws : List AppWorkloadInfo) :
    ∀ added up tu, walk added up tu ws
      = ((surviving_workloads added ws).foldl associate_workload_up up,
         (surviving_workloads added ws).foldl associate_workload_tu tu) := by
  induction ws with
  | nil =>
    intro added up tu
    rfl
  | cons w ws ih =>
    intro added up tu
    cases hw : w.plugin_id with
    | some p =>
      by_cases hp : p ∈ added
      · simp only [walk, surviving_workloads, hw, if_pos hp]
        exact ih added up tu
      · simp only [walk, surviving_workloads, hw, if_neg hp, List.foldl_cons]
        exact ih (added ++ [p]) (associate_workload_up up w) (associate_workload_tu tu w)
    | none =>
      simp only [walk, surviving_workloads, hw, List.foldl_cons]
      exact ih added (associate_workload_up up w) (associate_workload_tu tu w)

theorem associate_workload_up_eq (bkts : Buckets) (w : AppWorkloadInfo) :
    associate_workload_up bkts w
      = bucket_fold (fun l => CyclePluginAssociations.mk w.name w.plugin_id l) bkts
          w.track_update_packed := rfl

theorem associate_workload_tu_eq (bkts : Buckets) (w : AppWorkloadInfo) :
    associate_workload_tu bkts w
      = bucket_fold (fun l => CyclePluginAssociations.mk w.name none l) bkts
          w.track_tracked_uniques := rfl

theorem bucket_fold_cons (g : List PluginAssociated → CyclePluginAssociations)
    (bkts : Buckets) (e : TypeId × List PluginAssociated)
    (es : List (TypeId × List PluginAssociated)) :
    bucket_fold g bkts (e :: es)
      = bucket_fold g (if e.2.isEmpty then bkts else associate bkts e.1 (g e.2)) es := rfl

theorem alookup_associate_ne {α : Type} (bkts : List (TypeId × List α)) (t t2 : TypeId)
    (a : α) (h : t2 ≠ t) : alookup (associate bkts t a) t2 = alookup bkts t2 :=
  alookup_aset_ne _ _ _ _ h

theorem alookup_associate_self {α : Type} (bkts : List (TypeId × List α)) (t : TypeId)
    (a : α) :
    alookup (associate bkts t a) t = some (((alookup bkts t).getD []) ++ [a]) :=
  alookup_aset_self _ _ _

theorem bucket_fold_lookup_skip (g : List PluginAssociated → CyclePluginAssociations)
    (t : TypeId) :
    ∀ es : List (TypeId × List PluginAssociated), (∀ e ∈ es, e.1 = t → e.2 = []) →
      ∀ bkts, alookup (bucket_fold g bkts es) t = alookup bkts t := by
  intro es
  induction es with
  | nil =>
    intro _ bkts
    rfl
  | cons e es ih =>
    intro h bkts
    rw [bucket_fold_cons]
    by_cases he : e.2.isEmpty
    · rw [if_pos he]
      exact ih (fun x hx => h x (List.mem_cons_of_mem e hx)) bkts
    · rw [if_neg he]
      have het : ¬ (e.1 = t) := by
        intro hh
        apply he
        rw [h e (List.mem_cons_self e es) hh]
        rfl
      rw [ih (fun x hx => h x (List.mem_cons_of_mem e hx)) _,
        alookup_associate_ne _ _ _ _ (fun hh => het hh.symm)]

theorem bucket_fold_lookup_add (g : List PluginAssociated → CyclePluginAssociations)
    (t : TypeId) (l : List PluginAssociated) (hl : l ≠ []) :
    ∀ es : List (TypeId × List PluginAssociated), (es.map Prod.fst).Nodup → (t, l) ∈ es →
      ∀ bkts, alookup (bucket_fold g bkts es) t
        = some (((alookup bkts t).getD []) ++ [g l]) := by
  intro es
  induction es with
  | nil =>
    intro _ hmem
    simp at hmem
  | cons e es ih =>
    intro hnd hmem bkts
    rw [List.map_cons, List.nodup_cons] at hnd
    rw [bucket_fold_cons]
    rcases List.mem_cons.mp hmem with hme | hme
    · have he2 : e.2 = l := by
        rw [← hme]
      have he1 : e.1 = t := by
        rw [← hme]
      have hne : ¬ e.2.isEmpty := by
        rw [he2]
        simpa using hl
      rw [if_neg hne]
      have hskip : ∀ x ∈ es, x.1 = t → x.2 = [] := by
        intro x hx hxt
        exfalso
        apply hnd.1
        exact List.mem_map.mpr ⟨x, hx, hxt.trans he1.symm⟩
      rw [bucket_fold_lookup_skip g t es hskip _]
      rw [he1, he2]
      exact alookup_associate_self bkts t (g l)
    · have het : ¬ (e.1 = t) := by
        intro hh
        apply hnd.1
        rw [hh]
        exact List.mem_map.mpr ⟨(t, l), hme, rfl⟩
      by_cases he : e.2.isEmpty
      · rw [if_pos he]
        exact ih hnd.2 hme bkts
      · rw [if_neg he]
        rw [ih hnd.2 hme _, alookup_associate_ne _ _ _ _ (fun hh => het hh.symm)]

theorem up_claims_alookup (w : AppWorkloadInfo) (t : TypeId) (h : up_claims w t ≠ []) :
    alookup w.track_update_packed t = some (up_claims w t) := by
  unfold up_claims at h ⊢
  cases hx : alookup w.track_update_packed t with
  | none =>
    rw [hx] at h
    simp at h
  | some l => simp [hx]

theorem tu_claims_alookup (w : AppWorkloadInfo) (t : TypeId) (h : tu_claims w t ≠ []) :
    alookup w.track_tracked_uniques t = some (tu_claims w t) := by
  unfold tu_claims at h ⊢
  cases hx : alookup w.track_tracked_uniques t with
  | none =>
    rw [hx] at h
    simp at h
  | some l => simp [hx]

theorem assoc_up_lookup_skip (bkts : Buckets) (w : AppWorkloadInfo) (t : TypeId)
    (hnd : (w.track_update_packed.map Prod.fst).Nodup) (h : up_claims w t = []) :
    alookup (associate_workload_up bkts w) t = alookup bkts t := by
  rw [associate_workload_up_eq]
  apply bucket_fold_lookup_skip
  intro e he hk
  have hmm : (e.1, e.2) ∈ w.track_update_packed := he
  rw [hk] at hmm
  have := alookup_of_mem_nodup w.track_update_packed t e.2 hnd hmm
  unfold up_claims at h
  rw [this] at h
  simpa using h

theorem assoc_up_lookup_add (bkts : Buckets) (w : AppWorkloadInfo) (t : TypeId)
    (hnd : (w.track_update_packed.map Prod.fst).Nodup) (h : up_claims w t ≠ []) :
    alookup (associate_workload_up bkts w) t
      = some (((alookup bkts t).getD []) ++ [up_entry w t]) := by
  rw [associate_workload_up_eq]
  exact bucket_fold_lookup_add _ t (up_claims w t) h w.track_update_packed hnd
    (alookup_mem _ _ _ (up_claims_alookup w t h)) bkts

theorem assoc_tu_lookup_skip (bkts : Buckets) (w : AppWorkloadInfo) (t : TypeId)
    (hnd : (w.track_tracked_uniques.map Prod.fst).Nodup) (h : tu_claims w t = []) :
    alookup (associate_workload_tu bkts w) t = alookup bkts t := by
  rw [associate_workload_tu_eq]
  apply bucket_fold_lookup_skip
  intro e he hk
  have hmm : (e.1, e.2) ∈ w.track_tracked_uniques := he
  rw [hk] at hmm
  have := alookup_of_mem_nodup w.track_tracked_uniques t e.2 hnd hmm
  unfold tu_claims at h
  rw [this] at h
  simpa using h

theorem assoc_tu_lookup_add (bkts : Buckets) (w : AppWorkloadInfo) (t : TypeId)
    (hnd : (w.track_tracked_uniques.map Prod.fst).Nodup) (h : tu_claims w t ≠ []) :
    alookup (associate_workload_tu bkts w) t
      = some (((alookup bkts t).getD []) ++ [tu_entry w t]) := by
  rw [associate_workload_tu_eq]
  exact bucket_fold_lookup_add _ t (tu_claims w t) h w.track_tracked_uniques hnd
    (alookup_mem _ _ _ (tu_claims_alookup w t h)) bkts

theorem foldl_assoc_claims
    (F : Buckets → AppWorkloadInfo → Buckets)
    (claims : AppWorkloadInfo → TypeId → List PluginAssociated)
    (ent : AppWorkloadInfo → TypeId → CyclePluginAssociations) (t : TypeId) :
    ∀ ws : List AppWorkloadInfo,
      (∀ bkts w, w ∈ ws → claims w t = [] → alookup (F bkts w) t = alookup bkts t) →
      (∀ bkts w, w ∈ ws → claims w t ≠ [] →
        alookup (F bkts w) t = some (((alookup bkts t).getD []) ++ [ent w t])) →
      ∀ bkts, (alookup (ws.foldl F bkts) t).getD []
        = ((alookup bkts t).getD [])
          ++ ((ws.filter (fun w => !(claims w t).isEmpty)).map (fun w => ent w t)) := by
  intro ws
  induction ws with
  | nil =>
    intro _ _ bkts
    simp
  | cons w ws ih =>
    intro hskip hadd bkts
    rw [List.foldl_cons, List.filter_cons]
    by_cases hc : claims w t = []
    · rw [if_neg (by simp [hc])]
      rw [ih (fun b x hx => hskip b x (List.mem_cons_of_mem w hx))
        (fun b x hx => hadd b x (List.mem_cons_of_mem w hx)) (F bkts w)]
      rw [hskip bkts w (List.mem_cons_self w ws) hc]
    · rw [if_pos (by simp [hc])]
      rw [ih (fun b x hx => hskip b x (List.mem_cons_of_mem w hx))
        (fun b x hx => hadd b x (List.mem_cons_of_mem w hx)) (F bkts w)]
      rw [hadd bkts w (List.mem_cons_self w ws) hc]
      simp

theorem up_bucket_getD (cycle : List AppWorkloadInfo) (t : TypeId)
    (hw : ∀ w ∈ surviving_workloads [] cycle, (w.track_update_packed.map Prod.fst).Nodup) :
    (alookup ((surviving_workloads [] cycle).foldl associate_workload_up []) t).getD []
      = (up_claimers cycle t).map (fun w => up_entry w t) := by
  rw [foldl_assoc_claims associate_workload_up up_claims up_entry t
    (surviving_workloads [] cycle)
    (fun bkts w hwmem hc => assoc_up_lookup_skip bkts w t (hw w hwmem) hc)
    (fun bkts w hwmem hc => assoc_up_lookup_add bkts w t (hw w hwmem) hc) []]
  rfl

theorem tu_bucket_getD (cycle : List AppWorkloadInfo) (t : TypeId)
    (hw : ∀ w ∈ surviving_workloads [] cycle, (w.track_tracked_uniques.map Prod.fst).Nodup) :
    (alookup ((surviving_workloads [] cycle).foldl associate_workload_tu []) t).getD []
      = (tu_claimers cycle t).map (fun w => tu_entry w t) := by
  rw [foldl_assoc_claims associate_workload_tu tu_claims tu_entry t
    (surviving_workloads [] cycle)
    (fun bkts w hwmem hc => assoc_tu_lookup_skip bkts w t (hw w hwmem) hc)
    (fun bkts w hwmem hc => assoc_tu_lookup_add bkts w t (hw w hwmem) hc) []]
  rfl

theorem bucket_fold_keys_nodup (g : List PluginAssociated → CyclePluginAssociations)
    (es : List (TypeId × List PluginAssociated)) :
    ∀ bkts : Buckets, (bkts.map Prod.fst).Nodup
      → ((bucket_fold g bkts es).map Prod.fst).Nodup := by
  induction es with
  | nil =>
    intro bkts h
    exact h
  | cons e es ih =>
    intro bkts h
    rw [bucket_fold_cons]
    by_cases he : e.2.isEmpty
    · rw [if_pos he]
      exact ih bkts h
    · rw [if_neg he]
      exact ih _ (aset_keys_nodup _ _ _ h)

theorem foldl_up_keys_nodup (ws : List AppWorkloadInfo) :
    ((ws.foldl associate_workload_up []).map Prod.fst).Nodup := by
  apply foldl_preserves (fun bkts : Buckets => (bkts.map Prod.fst).Nodup)
  · intro acc w _ hp
    rw [associate_workload_up_eq]
    exact bucket_fold_keys_nodup _ _ acc hp
  · simp

theorem foldl_tu_keys_nodup (ws : List AppWorkloadInfo) :
    ((ws.foldl associate_workload_tu []).map Prod.fst).Nodup := by
  apply foldl_preserves (fun bkts : Buckets => (bkts.map Prod.fst).Nodup)
  · intro acc w _ hp
    rw [associate_workload_tu_eq]
    exact bucket_fold_keys_nodup _ _ acc hp
  · simp

theorem add_cycle_ite (tn : TypeId → String) (cycle : List AppWorkloadInfo) :
    add_cycle tn cycle
      = if (cycle_errors tn cycle).isEmpty
        then Except.ok (cycle.map (fun w => w.name))
        else Except.error (cycle_errors tn cycle) := rfl

theorem cycle_errors_eq (tn : TypeId → String) (cycle : List AppWorkloadInfo) :
    cycle_errors tn cycle
      = ((((surviving_workloads [] cycle).foldl associate_workload_up []).filter
          (fun e => 1 < e.2.length)).map
          (fun e => CycleCheckError.UpdatePackResetInMultipleWorkloads (tn e.1) e.2))
      ++ ((((surviving_workloads [] cycle).foldl associate_workload_tu []).filter
          (fun e => 1 < e.2.length)).map
          (fun e => CycleCheckError.TrackedUniqueResetInMultipleWorkloads (tn e.1) e.2)) := by
  unfold cycle_errors
  rw [walk_eq]

/-- C2: App::add_cycle returns an error iff some update-packed storage type
or tracked-unique type is claimed by more than one distinct contributing
workload in the input list (duplicate plugin identities contribute once, as
C6 states); the error is a batch collected over the whole list containing
exactly one conflict entry per conflicting resource type and nothing else,
each entry carrying the resource's display name and every conflicting
workload together with its claim reasons.  Hypotheses: the summaries'
per-workload ledgers have distinct keys (they are built from HashMaps) and
the type-name registry is injective on ids. -/
theorem add_cycle_conflict_spec (tn : TypeId → String) (cycle : List AppWorkloadInfo)
    (htn : Function.Injective tn)
    (hw : ∀ w ∈ cycle, (w.track_update_packed.map Prod.fst).Nodup
      ∧ (w.track_tracked_uniques.map Prod.fst).Nodup) :
    ((∃ errs, add_cycle tn cycle = Except.error errs)
      ↔ (∃ t, 2 ≤ (up_claimers cycle t).length ∨ 2 ≤ (tu_claimers cycle t).length))
    ∧ (∀ errs, add_cycle tn cycle = Except.error errs →
        (∀ t, 2 ≤ (up_claimers cycle t).length →
          List.count (up_conflict_err tn cycle t) errs = 1)
        ∧ (∀ t, 2 ≤ (tu_claimers cycle t).length →
          List.count (tu_conflict_err tn cycle t) errs = 1)
        ∧ (∀ er ∈ errs,
            (∃ t, 2 ≤ (up_claimers cycle t).length ∧ er = up_conflict_err tn cycle t)
            ∨ (∃ t, 2 ≤ (tu_claimers cycle t).length ∧ er = tu_conflict_err tn cycle t))) := by
  have hwup : ∀ w ∈ surviving_workloads [] cycle,
      (w.track_update_packed.map Prod.fst).Nodup :=
    fun w hm => (hw w (surviving_subset cycle [] w hm)).1
  have hwtu : ∀ w ∈ surviving_workloads [] cycle,
      (w.track_tracked_uniques.map Prod.fst).Nodup :=
    fun w hm => (hw w (surviving_subset cycle [] w hm)).2
  have hndup := foldl_up_keys_nodup (surviving_workloads [] cycle)
  have hndtu := foldl_tu_keys_nodup (surviving_workloads [] cycle)
  have hcharup : ∀ e ∈ (surviving_workloads [] cycle).foldl associate_workload_up [],
      e.2 = (up_claimers cycle e.1).map (fun w => up_entry w e.1) := by
    intro e he
    have h1 := alookup_of_mem_nodup _ e.1 e.2 hndup he
    have h2 := up_bucket_getD cycle e.1 hwup
    rw [h1] at h2
    simpa using h2
  have hchartu : ∀ e ∈ (surviving_workloads [] cycle).foldl associate_workload_tu [],
      e.2 = (tu_claimers cycle e.1).map (fun w => tu_entry w e.1) := by
    intro e he
    have h1 := alookup_of_mem_nodup _ e.1 e.2 hndtu he
    have h2 := tu_bucket_getD cycle e.1 hwtu
    rw [h1] at h2
    simpa using h2
  have hconfup : ∀ t, 2 ≤ (up_claimers cycle t).length →
      (t, (up_claimers cycle t).map (fun w => up_entry w t))
        ∈ ((surviving_workloads [] cycle).foldl associate_workload_up []).filter
            (fun e => 1 < e.2.length) := by
    intro t h2
    have hg := up_bucket_getD cycle t hwup
    have hlen : 2 ≤ ((up_claimers cycle t).map (fun w => up_entry w t)).length := by
      simpa using h2
    cases hx : alookup ((surviving_workloads [] cycle).foldl associate_workload_up []) t with
    | none =>
      rw [hx] at hg
      simp at hg
      rw [hg] at h2
      simp at h2
    | some v =>
      rw [hx] at hg
      simp at hg
      rw [List.mem_filter]
      refine ⟨?_, ?_⟩
      · have := alookup_mem _ _ _ hx
        rw [hg] at this
        exact this
      · simp
        omega
  have hconftu : ∀ t, 2 ≤ (tu_claimers cycle t).length →
      (t, (tu_claimers cycle t).map (fun w => tu_entry w t))
        ∈ ((surviving_workloads [] cycle).foldl associate_workload_tu []).filter
            (fun e => 1 < e.2.length) := by
    intro t h2
    have hg := tu_bucket_getD cycle t hwtu
    have hlen : 2 ≤ ((tu_claimers cycle t).map (fun w => tu_entry w t)).length := by
      simpa using h2
    cases hx : alookup ((surviving_workloads [] cycle).foldl associate_workload_tu []) t with
    | none =>
      rw [hx] at hg
      simp at hg
      rw [hg] at h2
      simp at h2
    | some v =>
      rw [hx] at hg
      simp at hg
      rw [List.mem_filter]
      refine ⟨?_, ?_⟩
      · have := alookup_mem _ _ _ hx
        rw [hg] at this
        exact this
      · simp
        omega
  have hEeq := cycle_errors_eq tn cycle
  have hmemEup : ∀ t, 2 ≤ (up_claimers cycle t).length →
      up_conflict_err tn cycle t ∈ cycle_errors tn cycle := by
    intro t h2
    rw [hEeq]
    exact List.mem_append_left _
      (List.mem_map.mpr ⟨(t, (up_claimers cycle t).map (fun w => up_entry w t)),
        hconfup t h2, rfl⟩)
  have hmemEtu : ∀ t, 2 ≤ (tu_claimers cycle t).length →
      tu_conflict_err tn cycle t ∈ cycle_errors tn cycle := by
    intro t h2
    rw [hEeq]
    exact List.mem_append_right _
      (List.mem_map.mpr ⟨(t, (tu_claimers cycle t).map (fun w => tu_entry w t)),
        hconftu t h2, rfl⟩)
  have hEnodup : (cycle_errors tn cycle).Nodup := by
    rw [hEeq]
    apply List.Nodup.append
    · apply List.Nodup.map
      · intro a b hab
        simp only [CycleCheckError.UpdatePackResetInMultipleWorkloads.injEq] at hab
        exact Prod.ext (htn hab.1) hab.2
      · exact (List.Nodup.of_map Prod.fst hndup).filter _
    · apply List.Nodup.map
      · intro a b hab
        simp only [CycleCheckError.TrackedUniqueResetInMultipleWorkloads.injEq] at hab
        exact Prod.ext (htn hab.1) hab.2
      · exact (List.Nodup.of_map Prod.fst hndtu).filter _
    · intro a ha hb
      rcases List.mem_map.mp ha with ⟨e1, _, h1⟩
      rcases List.mem_map.mp hb with ⟨e2, _, h2⟩
      rw [← h1] at h2
      exact CycleCheckError.noConfusion h2
  constructor
  · constructor
    · rintro ⟨errs, herrs⟩
      rw [add_cycle_ite] at herrs
      by_cases hE : (cycle_errors tn cycle).isEmpty
      · rw [if_pos hE] at herrs
        exact absurd herrs (by simp)
      · have hne : cycle_errors tn cycle ≠ [] := by
          simpa [List.isEmpty_iff] using hE
        rcases List.exists_mem_of_ne_nil _ hne with ⟨er, her⟩
        rw [hEeq] at her
        rcases List.mem_append.mp her with h | h
        · rcases List.mem_map.mp h with ⟨e, hef, hmk⟩
          rcases List.mem_filter.mp hef with ⟨heB, hlenb⟩
          have hc := hcharup e heB
          refine ⟨e.1, Or.inl ?_⟩
          have hlen2 : 1 < e.2.length := by simpa using hlenb
          rw [hc] at hlen2
          simpa using hlen2
        · rcases List.mem_map.mp h with ⟨e, hef, hmk⟩
          rcases List.mem_filter.mp hef with ⟨heB, hlenb⟩
          have hc := hchartu e heB
          refine ⟨e.1, Or.inr ?_⟩
          have hlen2 : 1 < e.2.length := by simpa using hlenb
          rw [hc] at hlen2
          simpa using hlen2
    · rintro ⟨t, ht⟩
      have hne : cycle_errors tn cycle ≠ [] := by
        rcases ht with h2 | h2
        · exact List.ne_nil_of_mem (hmemEup t h2)
        · exact List.ne_nil_of_mem (hmemEtu t h2)
      refine ⟨cycle_errors tn cycle, ?_⟩
      rw [add_cycle_ite, if_neg (by simpa [List.isEmpty_iff] using hne)]
  · intro errs herrs
    have herrsE : errs = cycle_errors tn cycle := by
      rw [add_cycle_ite] at herrs
      by_cases hE : (cycle_errors tn cycle).isEmpty
      · rw [if_pos hE] at herrs
        exact absurd herrs (by simp)
      · rw [if_neg hE] at herrs
        injection herrs with h
        exact h.symm
    subst herrsE
    refine ⟨?_, ?_, ?_⟩
    · intro t h2
      exact List.count_eq_one_of_mem hEnodup (hmemEup t h2)
    · intro t h2
      exact List.count_eq_one_of_mem hEnodup (hmemEtu t h2)
    · intro er her
      rw [hEeq] at her
      rcases List.mem_append.mp her with h | h
      · rcases List.mem_map.mp h with ⟨e, hef, hmk⟩
        rcases List.mem_filter.mp hef with ⟨heB, hlenb⟩
        have hc := hcharup e heB
        have hlen2 : 1 < e.2.length := by simpa using hlenb
        refine Or.inl ⟨e.1, ?_, ?_⟩
        · rw [hc] at hlen2
          simpa using hlen2
        · rw [← hmk]
          unfold up_conflict_err
          rw [← hc]
      · rcases List.mem_map.mp h with ⟨e, hef, hmk⟩
        rcases List.mem_filter.mp hef with ⟨heB, hlenb⟩
        have hc := hchartu e heB
        have hlen2 : 1 < e.2.length := by simpa using hlenb
        refine Or.inr ⟨e.1, ?_, ?_⟩
        · rw [hc] at hlen2
          simpa using hlen2
        · rw [← hmk]
          unfold tu_conflict_err
          rw [← hc]

/-- C2 witness: two workloads from distinct plugins both update-packing
type 0 produce an error batch holding exactly one conflict entry for type 0,
naming both workloads and reasons. -/
theorem add_cycle_conflict_spec_witness :
    ∃ errs,
      add_cycle (fun t => String.mk (List.replicate t 'a'))
        [AppWorkloadInfo.mk "w1" (some 5) [(0, [([], "r1")])] [],
         AppWorkloadInfo.mk "w2" (some 6) [(0, [([], "r2")])] []] = Except.error errs
      ∧ List.count (up_conflict_err (fun t => String.mk (List.replicate t 'a'))
          [AppWorkloadInfo.mk "w1" (some 5) [(0, [([], "r1")])] [],
           AppWorkloadInfo.mk "w2" (some 6) [(0, [([], "r2")])] []] 0) errs = 1 := by
  have htn : Function.Injective (fun t : TypeId => String.mk (List.replicate t 'a')) := by
    intro a b h
    simpa using congrArg (fun s => s.data.length) h
  have hmain := add_cycle_conflict_spec (fun t => String.mk (List.replicate t 'a'))
    [AppWorkloadInfo.mk "w1" (some 5) [(0, [([], "r1")])] [],
     AppWorkloadInfo.mk "w2" (some 6) [(0, [([], "r2")])] []] htn (by decide)
  rcases hmain.1.mpr ⟨0, Or.inl (by decide)⟩ with ⟨errs, herrs⟩
  exact ⟨errs, herrs, (hmain.2 errs herrs).1 0 (by decide)⟩

theorem surv_append (l1 : List AppWorkloadInfo) :
    ∀ added (l2 : List AppWorkloadInfo),
      surviving_workloads added (l1 ++ l2)
        = surviving_workloads added l1
          ++ surviving_workloads (added_after added l1) l2 := by
  induction l1 with
  | nil =>
    intro added l2
    rfl
  | cons x xs ih =>
    intro added l2
    cases hx : x.plugin_id with
    | some p =>
      by_cases hp : p ∈ added
      · simp only [List.cons_append, surviving_workloads, added_after, hx, if_pos hp]
        exact ih added l2
      · simp only [List.cons_append, surviving_workloads, added_after, hx, if_neg hp,
          List.append_eq]
        rw [ih (added ++ [p]) l2]
    | none =>
      simp only [List.cons_append, surviving_workloads, added_after, hx, List.append_eq]
      rw [ih added l2]

theorem mem_added_after (ws : List AppWorkloadInfo) :
    ∀ added (x : TypeId),
      x ∈ added_after added ws ↔ (x ∈ added ∨ ∃ w ∈ ws, w.plugin_id = some x) := by
  induction ws with
  | nil =>
    intro added x
    simp [added_after]
  | cons w ws ih =>
    intro added x
    cases hw : w.plugin_id with
    | some p =>
      by_cases hp : p ∈ added
      · simp only [added_after, hw, if_pos hp]
        rw [ih added x]
        constructor
        · rintro (h | h)
          · exact Or.inl h
          · exact Or.inr (by
              rcases h with ⟨w2, hw2, hw2p⟩
              exact ⟨w2, List.mem_cons_of_mem w hw2, hw2p⟩)
        · rintro (h | ⟨w2, hw2, hw2p⟩)
          · exact Or.inl h
          · rcases List.mem_cons.mp hw2 with hh | hh
            · subst hh
              rw [hw] at hw2p
              injection hw2p with hpx
              exact Or.inl (hpx ▸ hp)
            · exact Or.inr ⟨w2, hh, hw2p⟩
      · simp only [added_after, hw, if_neg hp]
        rw [ih (added ++ [p]) x]
        constructor
        · rintro (h | h)
          · rcases List.mem_append.mp h with h | h
            · exact Or.inl h
            · simp at h
              exact Or.inr ⟨w, List.mem_cons_self w ws, by rw [hw, h]⟩
          · rcases h with ⟨w2, hw2, hw2p⟩
            exact Or.inr ⟨w2, List.mem_cons_of_mem w hw2, hw2p⟩
        · rintro (h | ⟨w2, hw2, hw2p⟩)
          · exact Or.inl (List.mem_append_left _ h)
          · rcases List.mem_cons.mp hw2 with hh | hh
            · subst hh
              rw [hw] at hw2p
              injection hw2p with hpx
              exact Or.inl (List.mem_append_right _ (by simp [hpx]))
            · exact Or.inr ⟨w2, hh, hw2p⟩
    | none =>
      simp only [added_after, hw]
      rw [ih added x]
      constructor
      · rintro (h | ⟨w2, hw2, hw2p⟩)
        · exact Or.inl h
        · exact Or.inr ⟨w2, List.mem_cons_of_mem w hw2, hw2p⟩
      · rintro (h | ⟨w2, hw2, hw2p⟩)
        · exact Or.inl h
        · rcases List.mem_cons.mp hw2 with hh | hh
          · subst hh
            rw [hw] at hw2p
            exact absurd hw2p (by simp)
          · exact Or.inr ⟨w2, hh, hw2p⟩

/-- C6: add_cycle skips the exclusive-tracking claims of any workload whose
plugin identity equals that of an earlier workload in the same input list
(the conflict outcome of the list with the duplicate equals that of the list
without it, whatever the workloads' names), and in particular composing the
same plugin's workload twice, as in [U1, U2] with equal plugin TypeIds,
counts its claims once and yields zero conflicts. -/
theorem add_cycle_duplicate_skip_spec (tn : TypeId → String) :
    (∀ (ws1 : List AppWorkloadInfo) (w : AppWorkloadInfo) (ws2 : List AppWorkloadInfo)
      (p : TypeId), w.plugin_id = some p → (∃ w1 ∈ ws1, w1.plugin_id = some p) →
        surviving_workloads [] (ws1 ++ w :: ws2) = surviving_workloads [] (ws1 ++ ws2)
        ∧ ∀ errs, (add_cycle tn (ws1 ++ w :: ws2) = Except.error errs
            ↔ add_cycle tn (ws1 ++ ws2) = Except.error errs))
    ∧ (∀ u1 u2 : AppWorkloadInfo, ∀ p : TypeId,
        u1.plugin_id = some p → u2.plugin_id = some p →
        (u1.track_update_packed.map Prod.fst).Nodup →
        (u1.track_tracked_uniques.map Prod.fst).Nodup →
        add_cycle tn [u1, u2] = Except.ok [u1.name, u2.name]) := by
  constructor
  · intro ws1 w ws2 p hp hex
    have hsurv : surviving_workloads [] (ws1 ++ w :: ws2)
        = surviving_workloads [] (ws1 ++ ws2) := by
      rw [surv_append ws1 [] (w :: ws2), surv_append ws1 [] ws2]
      congr 1
      have hpA : p ∈ added_after [] ws1 := (mem_added_after ws1 [] p).mpr (Or.inr hex)
      simp only [surviving_workloads, hp, if_pos hpA]
    refine ⟨hsurv, ?_⟩
    have hE : cycle_errors tn (ws1 ++ w :: ws2) = cycle_errors tn (ws1 ++ ws2) := by
      rw [cycle_errors_eq, cycle_errors_eq, hsurv]
    intro errs
    rw [add_cycle_ite, add_cycle_ite, hE]
    by_cases hEe : (cycle_errors tn (ws1 ++ ws2)).isEmpty
    · rw [if_pos hEe, if_pos hEe]
      constructor <;> intro h <;> exact absurd h (by simp)
    · rw [if_neg hEe, if_neg hEe]
  · intro u1 u2 p hp1 hp2 hnd1 hnd2
    have hsurv : surviving_workloads [] [u1, u2] = [u1] := by
      have h1 : surviving_workloads [] [u1, u2]
          = u1 :: surviving_workloads [p] [u2] := by
        simp only [surviving_workloads, hp1, List.nil_append]
        rw [if_neg (by simp)]
      have h2 : surviving_workloads [p] [u2] = [] := by
        simp only [surviving_workloads, hp2]
        rw [if_pos (by simp)]
      rw [h1, h2]
    have hwup : ∀ w ∈ surviving_workloads [] [u1, u2],
        (w.track_update_packed.map Prod.fst).Nodup := by
      rw [hsurv]
      intro w hw
      rw [List.mem_singleton] at hw
      exact hw ▸ hnd1
    have hwtu : ∀ w ∈ surviving_workloads [] [u1, u2],
        (w.track_tracked_uniques.map Prod.fst).Nodup := by
      rw [hsurv]
      intro w hw
      rw [List.mem_singleton] at hw
      exact hw ▸ hnd2
    have hlenup : ∀ t, (up_claimers [u1, u2] t).length ≤ 1 := by
      intro t
      unfold up_claimers
      rw [hsurv]
      exact le_trans (List.length_filter_le _ _) (by simp)
    have hlentu : ∀ t, (tu_claimers [u1, u2] t).length ≤ 1 := by
      intro t
      unfold tu_claimers
      rw [hsurv]
      exact le_trans (List.length_filter_le _ _) (by simp)
    have hfilup : (((surviving_workloads [] [u1, u2]).foldl
        associate_workload_up []).filter (fun e => 1 < e.2.length)) = [] := by
      rw [List.eq_nil_iff_forall_not_mem]
      intro e he
      rcases List.mem_filter.mp he with ⟨heB, hlen⟩
      have h1 := alookup_of_mem_nodup _ e.1 e.2
        (foldl_up_keys_nodup (surviving_workloads [] [u1, u2])) heB
      have h2 := up_bucket_getD [u1, u2] e.1 hwup
      rw [h1] at h2
      simp at h2
      have hl2 : 1 < e.2.length := by simpa using hlen
      rw [h2] at hl2
      simp at hl2
      have := hlenup e.1
      omega
    have hfiltu : (((surviving_workloads [] [u1, u2]).foldl
        associate_workload_tu []).filter (fun e => 1 < e.2.length)) = [] := by
      rw [List.eq_nil_iff_forall_not_mem]
      intro e he
      rcases List.mem_filter.mp he with ⟨heB, hlen⟩
      have h1 := alookup_of_mem_nodup _ e.1 e.2
        (foldl_tu_keys_nodup (surviving_workloads [] [u1, u2])) heB
      have h2 := tu_bucket_getD [u1, u2] e.1 hwtu
      rw [h1] at h2
      simp at h2
      have hl2 : 1 < e.2.length := by simpa using hlen
      rw [h2] at hl2
      simp at hl2
      have := hlentu e.1
      omega
    have hEnil : cycle_errors tn [u1, u2] = [] := by
      rw [cycle_errors_eq, hfilup, hfiltu]
      rfl
    rw [add_cycle_ite, hEnil]
    rfl

/-- C6 witness: the same plugin identity built twice under different
workload names, both update-packing type 0, composes with zero conflicts. -/
theorem add_cycle_duplicate_skip_spec_witness :
    add_cycle (fun _ => "T")
      [AppWorkloadInfo.mk "w1" (some 5) [(0, [([], "r1")])] [],
       AppWorkloadInfo.mk "w2" (some 5) [(0, [([], "r2")])] []]
      = Except.ok ["w1", "w2"] :=
  (add_cycle_duplicate_skip_spec (fun _ => "T")).2
    (AppWorkloadInfo.mk "w1" (some 5) [(0, [([], "r1")])] [])
    (AppWorkloadInfo.mk "w2" (some 5) [(0, [([], "r2")])] []) 5
    rfl rfl (by decide) (by decide)

/-- C9: add_distinct returns false and performs no write (leaving the storage,
including its update-pack tracking flags, untouched) exactly when the entity
already has a component equal to the argument; otherwise it inserts or
overwrites the entity's component with the argument and returns true. -/
theorem add_distinct_spec {α : Type} [DecidableEq α] (s : Storage α) (e : EntityId) (c : α) :
    ((add_distinct s e c).1 = false ↔ alookup s.comps e = some c)
    ∧ ((add_distinct s e c).1 = false → (add_distinct s e c).2 = s)
    ∧ ((add_distinct s e c).1 = true →
        (add_distinct s e c).2 = add_component_unchecked s e c
        ∧ alookup (add_distinct s e c).2.comps e = some c) := by
  refine ⟨?_, ?_, ?_⟩
  · constructor
    · intro h
      unfold add_distinct at h
      cases hl : alookup s.comps e with
      | none => simp [hl] at h
      | some v =>
        simp [hl] at h
        by_cases hc : c = v
        · simp [hc, hl]
        · simp [hc] at h
    · intro h
      simp [add_distinct, h]
  · intro h
    unfold add_distinct at h ⊢
    cases hl : alookup s.comps e with
    | none => simp [hl] at h
    | some v =>
      simp [hl] at h ⊢
      by_cases hc : c = v
      · simp [hc]
      · simp [hc] at h
  · intro h
    have h2 : (add_distinct s e c).2 = add_component_unchecked s e c := by
      unfold add_distinct at h ⊢
      cases hl : alookup s.comps e with
      | none => simp [hl]
      | some v =>
        simp [hl] at h ⊢
        by_cases hc : c = v
        · simp [hc] at h
        · simp [hc]
    refine ⟨h2, ?_⟩
    rw [h2]
    unfold add_component_unchecked
    cases hl : alookup s.comps e <;> simp [alookup_aset_self]

/-- C9 witness: on a concrete storage holding component 5 at entity 1,
re-adding 5 is skipped and adding 6 overwrites. -/
theorem add_distinct_spec_witness :
    (add_distinct (Storage.mk [(1, 5)] [] []) 1 5).1 = false
    ∧ (add_distinct (Storage.mk [(1, 5)] [] []) 1 5).2 = Storage.mk [(1, 5)] [] []
    ∧ (add_distinct (Storage.mk [(1, 5)] [] []) 1 6).1 = true
    ∧ alookup (add_distinct (Storage.mk [(1, 5)] [] []) 1 6).2.comps 1 = some 6 := by
  have h1 := add_distinct_spec (Storage.mk [(1, 5)] [] []) 1 5
  have h2 := add_distinct_spec (Storage.mk [(1, 5)] [] []) 1 6
  refine ⟨h1.1.mpr (by decide), h1.2.1 (h1.1.mpr (by decide)), ?_, ?_⟩
  · decide
  · exact (h2.2.2 (by decide)).2

end ShipyardApp
